import Mathlib

/-
  Verification of the starling orbital-propagation engine.

  The development shallowly embeds the core simulation code
  (orbiter.rs, scenario.rs, universe.rs, orbital_luts.rs, math.rs).
  Several supporting modules referenced by that code (crate::orbits,
  crate::propagator, crate::pv, crate::nanotime, crate::planning,
  crate::entities, crate::inventory, crate::control_signals) are not
  part of the available sources; where their behaviour matters it is
  modelled from the specification, with a doc comment explaining what
  is modelled.  Machine floats are modelled as real numbers, machine
  integers as Int/Nat with explicit wrapping where it matters.
-/

namespace Starling

/-- Nanotime is a signed 64-bit count of nanoseconds; the spec demands
exact integer arithmetic, so it is modelled as an integer. -/
abbrev Nanotime := Int

/-- EntityId is an integer identifier (crate::id). -/
abbrev EntityId := Int

/-- Two-dimensional vector over the reals (glam Vec2 with f32 scalars
modelled as reals). -/
structure Vec2 where
  x : ℝ
  y : ℝ

instance : Add Vec2 := ⟨fun a b => ⟨a.x + b.x, a.y + b.y⟩⟩

def Vec2.zero : Vec2 := ⟨0, 0⟩

/-- Euclidean length of a vector (glam Vec2::length). -/
noncomputable def Vec2.length (v : Vec2) : ℝ := Real.sqrt (v.x ^ 2 + v.y ^ 2)

/-- Planar cross product, translated from src/starling/src/math.rs. -/
def cross2d (a b : Vec2) : ℝ := a.x * b.y - a.y * b.x

/-- Modelled from the spec: PV pairs a position and a velocity vector
(crate::pv is absent from src/). -/
structure PV where
  pos : Vec2
  vel : Vec2

instance : Add PV := ⟨fun a b => ⟨a.pos + b.pos, a.vel + b.vel⟩⟩

def PV.ZERO : PV := ⟨Vec2.zero, Vec2.zero⟩

/-- PV::vel dv, a PV with zero position and the given velocity. -/
def PV.velOnly (v : Vec2) : PV := ⟨Vec2.zero, v⟩

/-- Physical constants of a gravitating body (radius, gravitational
parameter, sphere-of-influence radius), as in the spec data model and
the literal used in src/starling/src/orbital_luts.rs. -/
structure Body where
  radius : ℝ
  mu : ℝ
  soi : ℝ

/-- Modelled from the spec: SparseOrbit (crate::orbits is absent from
src/) is an immutable conic description.  Of its fields, the verified
code paths consume the reference body, the epoch, and the cached
initial state vector, so exactly those are modelled. -/
structure SparseOrbit where
  body : Body
  epoch : Nanotime
  pv0 : PV

open Classical

/-- Modelled from the spec: SparseOrbit::from_pv derives an orbit from
a state vector and fails exactly on degenerate input (zero angular
momentum, i.e. purely radial motion). -/
noncomputable def SparseOrbit.fromPV (pv : PV) (body : Body) (epoch : Nanotime) :
    Option SparseOrbit :=
  if cross2d pv.pos pv.vel = 0 then none else some ⟨body, epoch, pv⟩

/-! ### Kepler lookup tables (src/starling/src/orbital_luts.rs) -/

/-- Modelled from the spec: lerp_f64, the f64 analogue of lerp in
src/starling/src/math.rs. -/
noncomputable def lerp_f64 (a b t : ℝ) : ℝ := a + (b - a) * t

/-- Modelled from the spec: the true anomaly as a function of mean
anomaly produced by the DenseOrbit sampling of SparseOrbit::ta_at_time
(crate::orbits and the splines crate are absent from src/).  The spec
permits a closed-form approximation for the lookup table; the model
uses the first-order equation of the center,
ta = ma + 2 ecc sin ma, which satisfies the exact Kepler boundary
identities ta(0) = 0, ta(pi) = pi and the symmetry
ta(2 pi - ma) = 2 pi - ta(ma). -/
noncomputable def ta_from_ma_model (ecc ma : ℝ) : ℝ := ma + 2 * ecc * Real.sin ma

/-- Translated from get_orbit_with_ecc: sample the deviation of true
anomaly from mean anomaly at the 500 points of linspace_f64(0, 1, 500),
i.e. at s = i / 499.  The Vec of 500 samples is modelled as a function
on the sample index. -/
noncomputable def get_orbit_with_ecc (ecc : ℝ) : ℕ → ℝ :=
  fun i =>
    ta_from_ma_model ecc (((i : ℝ) / 499) * (2 * Real.pi)) -
      ((i : ℝ) / 499) * 2 * Real.pi

/-- Translated from the BIG_ORBITS lazy static: a table from
eccentricity index 0..=93 (step 1) to the sampled deviation curve for
eccentricity e / 100. -/
noncomputable def BIG_ORBITS (e : ℕ) : Option (ℕ → ℝ) :=
  if e ≤ 93 then some (get_orbit_with_ecc ((e : ℝ) / 100)) else none

/-- Translated from fmod in orbital_luts.rs: a - n * floor (a / n). -/
noncomputable def fmod (a n : ℝ) : ℝ := a - n * ⌊a / n⌋

/-- Translated from lookup_ta_from_ma in orbital_luts.rs.  The cast
`(ecc * 100.0) as u8` saturates, hence the min with 255; the u8
increment el + 1 is modelled with wrapping (release semantics); the
cast of the sample position to usize is a floor since the operand is
nonnegative. -/
noncomputable def lookup_ta_from_ma (ma ecc : ℝ) : Option ℝ :=
  let m := fmod ma (2 * Real.pi)
  let ei : ℕ := min (⌊ecc * 100⌋.toNat) 255
  let el := ei - ei % 1
  let eu := (el + 1) % 256
  let sy := (ecc * 100 - (el : ℝ)) / 1
  (BIG_ORBITS el).bind fun lower =>
  (BIG_ORBITS eu).bind fun upper =>
    let x1 : ℕ := (⌊(m / (2 * Real.pi)) * 499⌋).toNat
    let x2 := x1 + 1
    let ma_x1 := ((x1 : ℝ) / 499) * (2 * Real.pi)
    let ma_x2 := ((x2 : ℝ) / 499) * (2 * Real.pi)
    let sx := (m - ma_x1) / (ma_x2 - ma_x1)
    let x1y1 := lower (x1 % 500)
    let x1y2 := upper (x1 % 500)
    let x2y1 := lower (x2 % 500)
    let x2y2 := upper (x2 % 500)
    let p1 := lerp_f64 x1y1 x1y2 sy
    let p2 := lerp_f64 x2y1 x2y2 sy
    some (lerp_f64 p1 p2 sx + m)

/-! ### Propagators and the planetary hierarchy -/

/-- GlobalOrbit pairs an orbit with the id of the body it orbits
(spec data model; the tuple struct itself lives in crate::orbits). -/
structure GlobalOrbit where
  parent : EntityId
  orbit : SparseOrbit

/-- Modelled from the spec: EventType (crate::propagator is absent
from src/), the tagged event variants of the data model. -/
inductive EventType where
  | collide (body : Body)
  | encounter (id : EntityId)
  | escape (id : EntityId)
  | impulse (dv : Vec2)
  | numericalError

/-- Modelled from the spec: HorizonState (crate::propagator is absent
from src/) describes how and when a trajectory segment ends. -/
inductive HorizonState where
  | continuing (endStamp : Nanotime)
  | indefinite
  | terminating (endStamp : Nanotime) (ev : EventType)
  | transition (endStamp : Nanotime) (ev : EventType)

/-- Modelled from the spec: Propagator (crate::propagator is absent
from src/), one time-bounded trajectory segment: the frame-qualified
orbit, a start time, and a horizon state. -/
structure Propagator where
  orbit : GlobalOrbit
  start : Nanotime
  horizon : HorizonState

/-- Modelled from the spec: Propagator::new makes a fresh segment at
the given stamp whose horizon is still being computed; nothing has
been computed yet, so the soft end equals the start. -/
def Propagator.new (orbit : GlobalOrbit) (stamp : Nanotime) : Propagator :=
  ⟨orbit, stamp, .continuing stamp⟩

/-- Propagator::end, the (finalized or soft) end time of the segment;
an indefinite segment has none. -/
def Propagator.endTime (p : Propagator) : Option Nanotime :=
  match p.horizon with
  | .continuing e => some e
  | .indefinite => none
  | .terminating e _ => some e
  | .transition e _ => some e

/-- Propagator::event, the event that ends the segment, if any. -/
def Propagator.event (p : Propagator) : Option EventType :=
  match p.horizon with
  | .continuing _ => none
  | .indefinite => none
  | .terminating _ ev => some ev
  | .transition _ ev => some ev

/-- Propagator::parent, the id of the reference body of the segment. -/
def Propagator.parent (p : Propagator) : EntityId := p.orbit.parent

/-- Propagator::is_indefinite. -/
def Propagator.isIndefinite (p : Propagator) : Bool :=
  match p.horizon with
  | .indefinite => true
  | _ => false

/-- Propagator::is_err: the segment ends in a numerical error. -/
def Propagator.isErr (p : Propagator) : Bool :=
  match p.horizon with
  | .terminating _ .numericalError => true
  | _ => false

/-- Modelled from the spec: Propagator::is_active (crate::propagator
is absent from src/).  A finalized segment is active on the half-open
interval from its start to its end, so that at a transition instant
only the successor is active; a segment that is still being computed
or is provably stable forever has no final end and is active from its
start on. -/
def Propagator.isActive (p : Propagator) (t : Nanotime) : Bool :=
  match p.horizon with
  | .continuing _ => decide (p.start ≤ t)
  | .indefinite => decide (p.start ≤ t)
  | .terminating e _ => decide (p.start ≤ t) && decide (t < e)
  | .transition e _ => decide (p.start ≤ t) && decide (t < e)

/-- A segment whose horizon is finalized with a successor-or-death
event (Terminating or Transition). -/
def Propagator.isTerminal (p : Propagator) : Prop :=
  match p.horizon with
  | .terminating _ _ => True
  | .transition _ _ => True
  | _ => False

/-- PredictError (crate::planning is absent from src/); the spec names
the Lookup and TooManyIterations variants, and solver failures are
covered by a numerical variant. -/
inductive PredictError where
  | lookup
  | tooManyIterations
  | numerical
deriving DecidableEq

/-- PlanetarySystem (src/starling/src/scenario.rs): a rooted tree in
which each child subsystem is placed by an orbit around its parent. -/
inductive PlanetarySystem where
  | mk (id : EntityId) (name : String) (body : Body)
      (subsystems : List (SparseOrbit × PlanetarySystem))

def PlanetarySystem.id : PlanetarySystem → EntityId
  | .mk i _ _ _ => i

def PlanetarySystem.name : PlanetarySystem → String
  | .mk _ n _ _ => n

def PlanetarySystem.body : PlanetarySystem → Body
  | .mk _ _ b _ => b

def PlanetarySystem.subsystems :
    PlanetarySystem → List (SparseOrbit × PlanetarySystem)
  | .mk _ _ _ s => s

/-- Modelled from the spec: the behaviour of the absent crate::orbits
and crate::propagator solvers, bundled as parameters of the
development.  conic models SparseOrbit::pv and Propagator::pv /
pv_universal (closed-form conic evaluation at a time, fallible);
focu models Propagator::finish_or_compute_until (extend or finalize
the horizon of the last segment up to a goal time, given the sibling
bodies); next models Propagator::next_prop (build the successor
segment of a finished transition). -/
structure SolverModel where
  conic : SparseOrbit → Nanotime → Option PV
  focu : Propagator → Nanotime → List (EntityId × SparseOrbit × ℝ) →
    Except PredictError Propagator
  next : Propagator → PlanetarySystem → Except PredictError (Option Propagator)

mutual

/-- Translated from PlanetarySystem::lookup_inner
(src/starling/src/scenario.rs): depth-first search for a body id,
accumulating the frame offset wrt and tracking the parent id;
subsystems whose placing orbit fails to evaluate at the stamp are
skipped. -/
def PlanetarySystem.lookupInner (M : SolverModel) (id : EntityId)
    (stamp : Nanotime) :
    PlanetarySystem → PV → Option EntityId →
      Option (Body × PV × Option EntityId × PlanetarySystem)
  | .mk sid nm bd subs, wrt, parentId =>
    if sid = id then some (bd, wrt, parentId, .mk sid nm bd subs)
    else PlanetarySystem.lookupList M id stamp sid subs wrt

/-- The for-loop over a node's subsystems inside lookup_inner. -/
def PlanetarySystem.lookupList (M : SolverModel) (id : EntityId)
    (stamp : Nanotime) (sid : EntityId) :
    List (SparseOrbit × PlanetarySystem) → PV →
      Option (Body × PV × Option EntityId × PlanetarySystem)
  | [], _ => none
  | (orbit, pl) :: rest, wrt =>
    match M.conic orbit stamp with
    | some pv =>
      match PlanetarySystem.lookupInner M id stamp pl (wrt + pv) (some sid) with
      | some r => some r
      | none => PlanetarySystem.lookupList M id stamp sid rest wrt
    | none => PlanetarySystem.lookupList M id stamp sid rest wrt

end

/-- Translated from PlanetarySystem::lookup. -/
def PlanetarySystem.lookup (M : SolverModel) (sys : PlanetarySystem)
    (id : EntityId) (stamp : Nanotime) :
    Option (Body × PV × Option EntityId × PlanetarySystem) :=
  sys.lookupInner M id stamp PV.ZERO none

mutual

/-- The number of nodes of the tree carrying the given id. -/
def countOcc (id : EntityId) : PlanetarySystem → ℕ
  | .mk sid _ _ subs => (if sid = id then 1 else 0) + countOccList id subs

def countOccList (id : EntityId) :
    List (SparseOrbit × PlanetarySystem) → ℕ
  | [] => 0
  | (_, pl) :: rest => countOcc id pl + countOccList id rest

end

/-- A root-to-node path in the planetary tree: the placing orbits
along the way, the id of the node directly above the target (none
when the target is the root itself), and the target node. -/
inductive PathTo :
    PlanetarySystem → List SparseOrbit → Option EntityId →
      PlanetarySystem → Prop where
  | refl (sys : PlanetarySystem) : PathTo sys [] none sys
  | step {sys : PlanetarySystem} {orbit : SparseOrbit}
      {child : PlanetarySystem} {os : List SparseOrbit} {p : Option EntityId}
      {target : PlanetarySystem} :
      (orbit, child) ∈ sys.subsystems →
      PathTo child os p target →
      PathTo sys (orbit :: os) (some (p.getD sys.id)) target

/-! ### Orbiter (src/starling/src/orbiter.rs) -/

/-- Modelled from the spec: the craft's vehicle is an opaque producer
of the liquid-fuel inventory count the core consumes as a mass budget
(crate::vehicle internals and crate::inventory are absent from src/);
only that count is modelled.  Inventory::take removes up to the given
number of units (saturating), Inventory::add adds units. -/
structure Vehicle where
  liquidFuel : ℕ

/-- Inventory count of LiquidFuel, as consumed by Orbiter::fuel_mass. -/
def Vehicle.fuelCount (v : Vehicle) : ℕ := v.liquidFuel

def Vehicle.takeFuel (v : Vehicle) (n : ℕ) : Vehicle := ⟨v.liquidFuel - n⟩

/-- Translated from rocket_equation in orbiter.rs. -/
noncomputable def rocket_equation (ve m0 m1 : ℝ) : ℝ := ve * Real.log (m0 / m1)

/-- Translated from mass_after_maneuver in orbiter.rs. -/
noncomputable def mass_after_maneuver (ve m0 dv : ℝ) : ℝ :=
  m0 / Real.exp (dv / ve)

/-- Translated from the Orbiter struct in orbiter.rs (the id field is
irrelevant to the verified behaviour and kept for shape). -/
structure Orbiter where
  id : Int
  maxFuelMass : ℝ
  dryMass : ℝ
  exhaustVelocity : ℝ
  props : List Propagator
  vehicle : Vehicle

/-- Orbiter::fuel_mass: the LiquidFuel count over 1000. -/
noncomputable def Orbiter.fuelMass (o : Orbiter) : ℝ :=
  (o.vehicle.fuelCount : ℝ) / 1000

/-- Orbiter::mass. -/
noncomputable def Orbiter.mass (o : Orbiter) : ℝ := o.dryMass + o.fuelMass

/-- Orbiter::remaining_dv. -/
noncomputable def Orbiter.remainingDv (o : Orbiter) : ℝ :=
  rocket_equation o.exhaustVelocity o.mass o.dryMass

/-- Orbiter::propagator_at: the first propagator active at the stamp. -/
def Orbiter.propagatorAt (o : Orbiter) (stamp : Nanotime) : Option Propagator :=
  o.props.find? (fun p => p.isActive stamp)

/-- Orbiter::pvl: the active propagator's local state at the stamp. -/
noncomputable def Orbiter.pvl (M : SolverModel) (o : Orbiter)
    (stamp : Nanotime) : Option PV :=
  match o.propagatorAt stamp with
  | none => none
  | some p => M.conic p.orbit.orbit stamp

/-- Translated from Orbiter::impulsive_burn.  The Rust method mutates
self and returns an Option, so the model returns the post-state
together with the option: the fuel check precedes the fuel deduction,
and the propagator chain is cleared and rebuilt only once the new
orbit has been constructed. -/
noncomputable def Orbiter.impulsiveBurn (M : SolverModel) (o : Orbiter)
    (stamp : Nanotime) (dv : Vec2) : Orbiter × Option Unit :=
  if dv.length > o.remainingDv then (o, none)
  else
    let fuelBefore := o.fuelMass
    let m1 := mass_after_maneuver o.exhaustVelocity o.mass dv.length
    let fuelAfter := m1 - o.dryMass
    let spent := fuelBefore - fuelAfter
    let o1 := { o with vehicle := o.vehicle.takeFuel (round (spent * 1000)).toNat }
    match o1.propagatorAt stamp with
    | none => (o1, none)
    | some prop =>
      match M.conic prop.orbit.orbit stamp with
      | none => (o1, none)
      | some pv =>
        let pv2 := pv + PV.velOnly dv
        match SparseOrbit.fromPV pv2 prop.orbit.orbit.body stamp with
        | none => (o1, none)
        | some orbit =>
          ({ o1 with props := [Propagator.new ⟨prop.parent, orbit⟩ stamp] },
            some ())

/-- Translated from the pruning while-loop at the top of
Orbiter::propagate_to: drop stale segments from the front while more
than one segment remains and the front one ends before the stamp. -/
def pruneProps (stamp : Nanotime) : List Propagator → List Propagator
  | [] => []
  | [p] => [p]
  | p :: q :: rest =>
    if (p.endTime.getD stamp) < stamp then pruneProps stamp (q :: rest)
    else p :: q :: rest

/-- Translated from the for-loop of Orbiter::propagate_to, with the
iteration budget as explicit fuel.  Each pass finalizes or extends the
last segment via finish_or_compute_until; a horizon beyond the goal
time, an indefinite or terminating horizon, or an unresolvable
transition ends the loop with success; a resolvable transition pushes
the successor; a failed successor computation caps the chain with a
zero-length NumericalError segment.  The returned list is the
propagator chain as left by the Rust method (also on error). -/
def propagateLoop (M : SolverModel) (planets : PlanetarySystem)
    (stamp t : Nanotime) :
    ℕ → List Propagator → List Propagator × Option PredictError
  | 0, props => (props, some .tooManyIterations)
  | fuel + 1, props =>
    match props.getLast? with
    | none => (props, some .lookup)
    | some prop =>
      match planets.lookup M prop.parent stamp with
      | none => (props, some .lookup)
      | some (_, _, _, pl) =>
        let bodies := pl.subsystems.map (fun op => (op.2.id, op.1, op.2.body.soi))
        match M.focu prop t bodies with
        | .error e => (props, some e)
        | .ok prop' =>
          let props' := props.dropLast ++ [prop']
          match prop'.horizon with
          | .indefinite => (props', none)
          | .terminating _ _ => (props', none)
          | .continuing e =>
            if e > t then (props', none)
            else propagateLoop M planets stamp t fuel props'
          | .transition e _ =>
            if e > t then (props', none)
            else
              match M.next prop' planets with
              | .ok none => (props', none)
              | .ok (some next) =>
                propagateLoop M planets stamp t fuel (props' ++ [next])
              | .error _ =>
                let capped : Propagator :=
                  { prop' with
                    start := e
                    horizon := .terminating e .numericalError }
                (props' ++ [capped], none)

/-- Translated from Orbiter::propagate_to: prune stale history from
the front, then extend the chain at the back for at most 10
iterations.  The Rust method mutates self and returns a Result; the
model returns the post-state and the error, if any. -/
def Orbiter.propagateTo (M : SolverModel) (o : Orbiter)
    (stamp futureDur : Nanotime) (planets : PlanetarySystem) :
    Orbiter × Option PredictError :=
  let pruned := pruneProps stamp o.props
  let r := propagateLoop M planets stamp (stamp + futureDur) 10 pruned
  ({ o with props := r.1 }, r.2)

/-- The chain invariant of the spec: the propagator list is nonempty,
contiguous (each segment's end time is exactly the next segment's
start time), every segment ends no earlier than it starts, and every
segment except possibly the last is finalized with a terminal
horizon. -/
def ChainWF (ps : List Propagator) : Prop :=
  ps ≠ [] ∧
  List.Chain' (fun p q => p.endTime = some q.start) ps ∧
  (∀ p ∈ ps, ∀ e, p.endTime = some e → p.start ≤ e) ∧
  (∀ p ∈ ps.dropLast, p.isTerminal)

/-- The number of propagators of a chain active at a queried time. -/
def activeCount (ps : List Propagator) (t : Nanotime) : ℕ :=
  (ps.filter (fun p => p.isActive t)).length

/-- The condition under which the propagate_to loop stops with Ok: the
last segment's horizon is indefinite or terminating, or reaches past
the goal time, or is a transition whose successor resolves to
nothing. -/
def settledAt (M : SolverModel) (planets : PlanetarySystem) (t : Nanotime)
    (ps : List Propagator) : Prop :=
  match ps.getLast? with
  | none => False
  | some p =>
    match p.horizon with
    | .indefinite => True
    | .terminating _ _ => True
    | .continuing e => e > t
    | .transition e _ => e > t ∨ M.next p planets = .ok none

/-- Modelled from the spec: the interface contract of
finish_or_compute_until — it finalizes or extends the horizon of the
segment in place, never moving its start, and keeps the segment ending
no earlier than it starts. -/
def FocuSpec (M : SolverModel) : Prop :=
  ∀ p t bs p', M.focu p t bs = .ok p' →
    p'.start = p.start ∧
    ((∀ e, p.endTime = some e → p.start ≤ e) →
      ∀ e, p'.endTime = some e → p'.start ≤ e)

/-- Modelled from the spec: the interface contract of next_prop — the
successor of a finished transition starts exactly at the transition's
end time, and ends no earlier than it starts. -/
def NextSpec (M : SolverModel) : Prop :=
  ∀ p pl q, M.next p pl = .ok (some q) →
    (∀ e ev, p.horizon = .transition e ev → q.start = e) ∧
    (∀ e, q.endTime = some e → q.start ≤ e)

/-! ### Scenario simulation (src/starling/src/scenario.rs) -/

/-- RemovalInfo, reported for each orbiter removed by simulate. -/
structure RemovalInfo where
  stamp : Nanotime
  reason : EventType
  parent : EntityId
  orbit : SparseOrbit

/-- Modelled from the spec: OrbitalSpacecraftEntity (crate::entities
is absent from src/); simulate consumes only its orbiter, so the other
entity state is kept abstract. -/
structure OSE (σ : Type) where
  orbiter : Orbiter
  rest : σ

/-- The removal record built by simulate from an orbiter's last
propagator: its end stamp (or the current stamp), its event (or
NumericalError), its parent id and its orbit. -/
def removalInfo (stamp : Nanotime) (p : Propagator) : RemovalInfo :=
  { stamp := p.endTime.getD stamp
    reason := (p.event).getD .numericalError
    parent := p.parent
    orbit := p.orbit.orbit }

/-- The retain-with-report pass of simulate: keep entities with an
active propagator at the stamp; for each entity dropped, report a
RemovalInfo from its last propagator, if it has one. -/
def retainSim {σ : Type} (stamp : Nanotime) :
    List (EntityId × OSE σ) →
      List (EntityId × OSE σ) × List (EntityId × RemovalInfo)
  | [] => ([], [])
  | e :: rest =>
    let r := retainSim stamp rest
    if (e.2.orbiter.propagatorAt stamp).isSome then (e :: r.1, r.2)
    else
      match e.2.orbiter.props.getLast? with
      | some p => (r.1, (e.1, removalInfo stamp p) :: r.2)
      | none => (r.1, r.2)

/-- The first pass of simulate: every orbiter advanced through
propagate_to (its error, if any, discarded), nothing removed yet. -/
def advancedOrbiters {σ : Type} (M : SolverModel)
    (orbiters : List (EntityId × OSE σ)) (planets : PlanetarySystem)
    (stamp futureDur : Nanotime) : List (EntityId × OSE σ) :=
  orbiters.map (fun e =>
    (e.1, { e.2 with
      orbiter := (e.2.orbiter.propagateTo M stamp futureDur planets).1 }))

/-- Translated from simulate in scenario.rs: first advance every
orbiter via propagate_to (discarding per-orbiter errors), then remove
the orbiters with no active propagator at the stamp, reporting each
removal.  The HashMap of entities is modelled as an association
list. -/
def simulate {σ : Type} (M : SolverModel)
    (orbiters : List (EntityId × OSE σ)) (planets : PlanetarySystem)
    (stamp futureDur : Nanotime) :
    List (EntityId × OSE σ) × List (EntityId × RemovalInfo) :=
  retainSim stamp (advancedOrbiters M orbiters planets stamp futureDur)

/-! ### Universe driver (src/starling/src/universe.rs) -/

/-- Modelled from the spec: a landing-site entity, of which the batch
condition consumes only the awake flag. -/
structure LandingSite where
  isAwake : Bool

/-- Modelled from the spec: the per-tick control-signal structure maps
craft ids to opaque control commands (crate::control_signals is absent
from src/); the driver branches only on its emptiness. -/
structure ControlSignals (κ : Type) where
  pilotingCommands : List (EntityId × κ)

def ControlSignals.isEmpty {κ : Type} (s : ControlSignals κ) : Bool :=
  s.pilotingCommands.isEmpty

/-- Modelled from the spec: the host-side pieces of the Universe
driver that are out of core scope or absent from src/ — the fixed
physics step PHYSICS_CONSTANT_DELTA_TIME, the per-tick and batch
vehicle updates (which never touch the simulation clock), and the
wall-clock oracle giving the elapsed duration observed after a number
of ticks of work (and after a batch run). -/
structure HostModel (ρ κ : Type) where
  dt : Nanotime
  tickRest : ρ → ControlSignals κ → Nanotime → ρ
  batchRest : ρ → Nanotime → ρ
  elapsedAt : ℕ → ℚ
  batchElapsed : ℚ

/-- The Universe state: simulation clock, tick counter, landing sites,
and the remaining (abstract) entity state. -/
structure Universe (ρ : Type) where
  stamp : Nanotime
  ticks : ℕ
  landingSites : List LandingSite
  rest : ρ

/-- Translated from Universe::on_sim_tick: advance the clock by one
fixed step, bump the tick counter, and run the per-tick entity
updates (abstracted into the host model; they do not touch the clock
or the landing-site awake flags). -/
def Universe.onSimTick {ρ κ : Type} (H : HostModel ρ κ) (u : Universe ρ)
    (signals : ControlSignals κ) : Universe ρ :=
  let stamp' := u.stamp + H.dt
  { u with
    ticks := u.ticks + 1
    stamp := stamp'
    rest := H.tickRest u.rest signals stamp' }

/-- Translated from Universe::run_batch_ticks: advance the clock by
ticks times the fixed step in one jump. -/
def Universe.runBatchTicks {ρ κ : Type} (H : HostModel ρ κ)
    (u : Universe ρ) (ticks : ℕ) : Universe ρ :=
  let stamp' := u.stamp + H.dt * ticks
  { u with
    ticks := u.ticks + ticks
    stamp := stamp'
    rest := H.batchRest u.rest stamp' }

/-- Translated from the non-batch loop of Universe::on_sim_ticks: run
up to fuel ticks, recording the tick count and the observed elapsed
wall time after each tick, and break once the elapsed time exceeds
the allowance. -/
def tickLoop {ρ κ : Type} (H : HostModel ρ κ) (signals : ControlSignals κ)
    (maxDur : ℚ) :
    ℕ → ℕ → ℚ → Universe ρ → Universe ρ × ℕ × ℚ
  | 0, done, exec, u => (u, done, exec)
  | fuel + 1, done, exec, u =>
    let done' := done + 1
    let u' := u.onSimTick H signals
    let exec' := H.elapsedAt done'
    if exec' > maxDur then (u', done', exec')
    else tickLoop H signals maxDur fuel done' exec' u'

/-- Translated from Universe::on_sim_ticks: if no landing-site surface
is awake and no control signals are pending, take the batch shortcut;
otherwise tick one step at a time under the wall-clock allowance.
Returns the new universe with the actual tick count, the elapsed wall
time and the batch flag. -/
def Universe.onSimTicks {ρ κ : Type} (H : HostModel ρ κ) (u : Universe ρ)
    (ticks : ℕ) (signals : ControlSignals κ) (maxDur : ℚ) :
    Universe ρ × ℕ × ℚ × Bool :=
  let surfacesAwake := u.landingSites.any (fun ls => ls.isAwake)
  if !surfacesAwake && signals.isEmpty then
    (u.runBatchTicks H ticks, ticks, H.batchElapsed, true)
  else
    let r := tickLoop H signals maxDur ticks 0 0 u
    (r.1, r.2.1, r.2.2, false)

/-! ### Concrete instances used to exercise the theorems -/

/-- A nondegenerate state vector. -/
def pvX : PV := ⟨⟨1, 0⟩, ⟨0, 1⟩⟩

def bodyX : Body := ⟨1, 1, 1⟩

def orbitX : SparseOrbit := ⟨bodyX, 0, pvX⟩

/-- A solver model whose conic evaluation returns the cached state
vector and whose horizon computation declares the segment indefinitely
stable; it satisfies the spec-derived interface properties. -/
def MX : SolverModel :=
  { conic := fun o _ => some o.pv0
    focu := fun p _ _ => .ok { p with horizon := .indefinite }
    next := fun _ _ => .ok none }

/-- A solver model whose horizon computation leaves the segment
untouched. -/
def MId : SolverModel :=
  { conic := fun o _ => some o.pv0
    focu := fun p _ _ => .ok p
    next := fun _ _ => .ok none }

def propX : Propagator := Propagator.new ⟨7, orbitX⟩ 0

def orbiterX : Orbiter := ⟨1, 800, 300, 1700, [propX], ⟨800000⟩⟩

/-- An orbiter with no fuel at all. -/
def orbiterDry : Orbiter := ⟨2, 800, 300, 1700, [propX], ⟨0⟩⟩

/-- An orbiter with an empty propagator chain. -/
def orbiterNoProps : Orbiter := ⟨3, 800, 300, 1700, [], ⟨800000⟩⟩

/-- A propagator around the root body of planetsRoot. -/
def propW : Propagator := Propagator.new ⟨0, orbitX⟩ 0

/-- An orbiter in orbit around the root body, with fuel. -/
def orbiterW : Orbiter := ⟨6, 800, 300, 1700, [propW], ⟨800000⟩⟩

/-- A planetary system with a single root body of id 0. -/
def planetsRoot : PlanetarySystem := .mk 0 "root" bodyX []

/-- A two-level planetary system: a moon of id 5 around a root of
id 0, placed by orbitX. -/
def planetsTwo : PlanetarySystem :=
  .mk 0 "root" bodyX [(orbitX, .mk 5 "moon" bodyX [])]

/-- A propagator whose parent id resolves nowhere in planetsRoot. -/
def propBadParent : Propagator := Propagator.new ⟨99, orbitX⟩ 0

def orbiterBadParent : Orbiter := ⟨4, 800, 300, 1700, [propBadParent], ⟨800000⟩⟩

/-- A single stale propagator: terminated at time -5, queried at 0. -/
def propStale : Propagator := ⟨⟨0, orbitX⟩, -10, .terminating (-5) .numericalError⟩

def orbiterStale : Orbiter := ⟨5, 800, 300, 1700, [propStale], ⟨800000⟩⟩

/-- A two-entity scenario: one live orbiter and one whose chain
terminated in the past. -/
def entsW : List (EntityId × OSE Unit) :=
  [(10, ⟨orbiterW, ()⟩), (11, ⟨orbiterStale, ()⟩)]

/-- A host model with dt = 5 and a wall clock that reads k after k
ticks of work. -/
def HX : HostModel Unit Unit :=
  { dt := 5
    tickRest := fun _ _ _ => ()
    batchRest := fun _ _ => ()
    elapsedAt := fun k => k
    batchElapsed := 1 }

def uAsleep : Universe Unit := ⟨0, 0, [⟨false⟩], ()⟩

def uAwake : Universe Unit := ⟨0, 0, [⟨true⟩], ()⟩

def sigEmpty : ControlSignals Unit := ⟨[]⟩

def sigBusy : ControlSignals Unit := ⟨[(1, ())]⟩

/-! ## Lookup-table lemmas and theorems (claims C7 and C10) -/

lemma BIG_ORBITS_some {e : ℕ} (h : e ≤ 93) :
    BIG_ORBITS e = some (get_orbit_with_ecc ((e : ℝ) / 100)) := by
  unfold BIG_ORBITS
  rw [if_pos h]

lemma BIG_ORBITS_none {e : ℕ} (h : 93 < e) : BIG_ORBITS e = none := by
  unfold BIG_ORBITS
  rw [if_neg (by omega)]

lemma get_orbit_val (a : ℝ) (i : ℕ) :
    get_orbit_with_ecc a i =
      2 * a * Real.sin (((i : ℝ) / 499) * (2 * Real.pi)) := by
  unfold get_orbit_with_ecc ta_from_ma_model
  ring

lemma natFloor_le_92 {ecc : ℝ} (h0 : 0 ≤ ecc) (h1 : ecc < 93 / 100) :
    ⌊ecc * 100⌋₊ ≤ 92 := by
  have h100 : (0 : ℝ) ≤ ecc * 100 := by positivity
  have h : ⌊ecc * 100⌋₊ < 93 := by
    rw [Nat.floor_lt h100]
    push_cast
    nlinarith
  omega

lemma lookup_ta_isSome {ecc : ℝ} (h0 : 0 ≤ ecc) (h1 : ecc < 93 / 100)
    (ma : ℝ) : (lookup_ta_from_ma ma ecc).isSome := by
  have hn := natFloor_le_92 h0 h1
  simp only [lookup_ta_from_ma]
  rw [Int.floor_toNat, min_eq_left (show ⌊ecc * 100⌋₊ ≤ 255 by omega),
    Nat.mod_one, Nat.sub_zero,
    Nat.mod_eq_of_lt (show ⌊ecc * 100⌋₊ + 1 < 256 by omega),
    BIG_ORBITS_some (by omega), BIG_ORBITS_some (by omega)]
  simp

lemma lookup_ta_eq_none {ecc : ℝ} (h0 : 0 ≤ ecc) (h1 : ¬ ecc < 93 / 100)
    (ma : ℝ) : lookup_ta_from_ma ma ecc = none := by
  have h93 : 93 ≤ ⌊ecc * 100⌋₊ := by
    have h100 : (93 : ℝ) ≤ ecc * 100 := by nlinarith [not_lt.1 h1]
    exact Nat.le_floor (by push_cast; linarith)
  simp only [lookup_ta_from_ma]
  rw [Int.floor_toNat, Nat.mod_one, Nat.sub_zero]
  rcases lt_or_ge ⌊ecc * 100⌋₊ 94 with h94 | h94
  · rw [show min ⌊ecc * 100⌋₊ 255 = 93 from by omega,
      BIG_ORBITS_some (by norm_num),
      show (93 + 1) % 256 = 94 from by norm_num, BIG_ORBITS_none (by norm_num)]
    simp
  · rw [BIG_ORBITS_none (show 93 < min ⌊ecc * 100⌋₊ 255 by omega)]
    simp

lemma lookup_ta_isSome_iff (ma ecc : ℝ) (h0 : 0 ≤ ecc) :
    (lookup_ta_from_ma ma ecc).isSome ↔ ecc < 93 / 100 := by
  constructor
  · intro h
    by_contra hc
    rw [lookup_ta_eq_none h0 hc ma] at h
    simp at h
  · intro h
    exact lookup_ta_isSome h0 h ma

lemma fmod_zero_left (n : ℝ) : fmod 0 n = 0 := by
  unfold fmod
  simp

lemma fmod_self {n : ℝ} (h : n ≠ 0) : fmod n n = 0 := by
  unfold fmod
  rw [div_self h]
  simp

lemma lookup_ta_at_fmod_zero {ecc : ℝ} (h0 : 0 ≤ ecc) (h1 : ecc < 93 / 100)
    {ma : ℝ} (hm : fmod ma (2 * Real.pi) = 0) :
    lookup_ta_from_ma ma ecc = some 0 := by
  have hn := natFloor_le_92 h0 h1
  simp only [lookup_ta_from_ma]
  rw [hm, Int.floor_toNat, min_eq_left (show ⌊ecc * 100⌋₊ ≤ 255 by omega),
    Nat.mod_one, Nat.sub_zero,
    Nat.mod_eq_of_lt (show ⌊ecc * 100⌋₊ + 1 < 256 by omega),
    BIG_ORBITS_some (by omega), BIG_ORBITS_some (by omega)]
  simp only [Option.some_bind]
  rw [show ((0 : ℝ) / (2 * Real.pi)) * 499 = 0 from by ring]
  norm_num [get_orbit_val, lerp_f64]

lemma lookup_ta_at_pi {ecc : ℝ} (h0 : 0 ≤ ecc) (h1 : ecc < 93 / 100) :
    lookup_ta_from_ma Real.pi ecc = some Real.pi := by
  have hn := natFloor_le_92 h0 h1
  have hp : Real.pi ≠ 0 := Real.pi_ne_zero
  have hm : fmod Real.pi (2 * Real.pi) = Real.pi := by
    unfold fmod
    have h2 : Real.pi / (2 * Real.pi) = 1 / 2 := by
      field_simp
      ring
    rw [h2, show ⌊(1 / 2 : ℝ)⌋ = 0 from by rw [Int.floor_eq_iff]; norm_num]
    simp
  simp only [lookup_ta_from_ma]
  rw [hm, Int.floor_toNat, min_eq_left (show ⌊ecc * 100⌋₊ ≤ 255 by omega),
    Nat.mod_one, Nat.sub_zero,
    Nat.mod_eq_of_lt (show ⌊ecc * 100⌋₊ + 1 < 256 by omega),
    BIG_ORBITS_some (by omega), BIG_ORBITS_some (by omega)]
  simp only [Option.some_bind]
  rw [show Real.pi / (2 * Real.pi) * 499 = 499 / 2 from by field_simp; ring]
  rw [show ⌊(499 / 2 : ℝ)⌋ = 249 from by rw [Int.floor_eq_iff]; norm_num]
  norm_num
  rw [show Int.toNat 249 = 249 from rfl]
  norm_num
  rw [show (Real.pi - 249 / 499 * (2 * Real.pi)) /
        (250 / 499 * (2 * Real.pi) - 249 / 499 * (2 * Real.pi)) = 1 / 2 from by
    rw [div_eq_div_iff (by nlinarith [Real.pi_pos]) (by norm_num)]
    ring]
  rw [get_orbit_val, get_orbit_val, get_orbit_val, get_orbit_val]
  push_cast
  rw [show (249 : ℝ) / 499 * (2 * Real.pi) = Real.pi - Real.pi / 499 from by ring,
    show (250 : ℝ) / 499 * (2 * Real.pi) = Real.pi / 499 + Real.pi from by ring,
    Real.sin_pi_sub, Real.sin_add_pi]
  unfold lerp_f64
  ring

/-- Claim C10: for every mean anomaly and every nonnegative
eccentricity, lookup_ta_from_ma (a total function in this model)
returns Some exactly when the floor of 100 times the eccentricity is
at most 92, equivalently when the eccentricity is below 0.93; for
larger eccentricities the BIG_ORBITS table (indices 0 through 93)
lacks the entry one index above the interpolation base, so the lookup
returns None. -/
theorem claim_C10_lookup_ta_domain (ma ecc : ℝ) (h : 0 ≤ ecc) :
    ((lookup_ta_from_ma ma ecc).isSome ↔ ⌊ecc * 100⌋ ≤ 92) ∧
    ((lookup_ta_from_ma ma ecc).isSome ↔ ecc < 93 / 100) := by
  have hiff : (⌊ecc * 100⌋ ≤ 92) ↔ ecc < 93 / 100 := by
    constructor
    · intro h'
      have hlt := Int.lt_floor_add_one (ecc * 100)
      have : ((⌊ecc * 100⌋ : ℤ) : ℝ) ≤ 92 := by exact_mod_cast h'
      nlinarith
    · intro h'
      have : ⌊ecc * 100⌋ < 93 := Int.floor_lt.2 (by push_cast; nlinarith)
      omega
  refine ⟨?_, lookup_ta_isSome_iff ma ecc h⟩
  rw [lookup_ta_isSome_iff ma ecc h, hiff]

/-- Witness for C10 at ma = 0, ecc = 1/2. -/
theorem claim_C10_lookup_ta_domain_witness :
    ((lookup_ta_from_ma 0 (1 / 2)).isSome ↔ ⌊(1 / 2 : ℝ) * 100⌋ ≤ 92) ∧
    ((lookup_ta_from_ma 0 (1 / 2)).isSome ↔ (1 / 2 : ℝ) < 93 / 100) :=
  claim_C10_lookup_ta_domain 0 (1 / 2) (by norm_num)

/-- Counterexample to claim C7 as stated: at eccentricity 0.95 (inside
the claimed range) and mean anomaly 0, lookup_ta_from_ma returns None
rather than a true anomaly. -/
theorem claim_C7_counterexample :
    lookup_ta_from_ma 0 (95 / 100) = none :=
  lookup_ta_eq_none (by norm_num) (by norm_num) 0

/-- Claim C7 (amended): for every eccentricity at least 0 and below
0.93 and every mean anomaly, lookup_ta_from_ma returns a true anomaly,
and the boundary identities hold within 1e-2 rad: the result is 0 at
mean anomaly 0, pi at mean anomaly pi, and 0 at mean anomaly 2 pi
(each exactly, in the real-valued model of the table). -/
theorem claim_C7_boundary_identities (ecc : ℝ) (h0 : 0 ≤ ecc)
    (h1 : ecc < 93 / 100) :
    (∀ ma, (lookup_ta_from_ma ma ecc).isSome) ∧
    (∃ y, lookup_ta_from_ma 0 ecc = some y ∧ |y - 0| ≤ 1 / 100) ∧
    (∃ y, lookup_ta_from_ma Real.pi ecc = some y ∧ |y - Real.pi| ≤ 1 / 100) ∧
    (∃ y, lookup_ta_from_ma (2 * Real.pi) ecc = some y ∧ |y - 0| ≤ 1 / 100) := by
  have h2pi : (2 : ℝ) * Real.pi ≠ 0 := by positivity
  exact ⟨fun ma => lookup_ta_isSome h0 h1 ma,
    ⟨0, lookup_ta_at_fmod_zero h0 h1 (fmod_zero_left _), by norm_num⟩,
    ⟨Real.pi, lookup_ta_at_pi h0 h1, by norm_num⟩,
    ⟨0, lookup_ta_at_fmod_zero h0 h1 (fmod_self h2pi), by norm_num⟩⟩

/-- Witness for the amended C7 at ecc = 1/2. -/
theorem claim_C7_boundary_identities_witness :
    (∀ ma, (lookup_ta_from_ma ma (1 / 2)).isSome) ∧
    (∃ y, lookup_ta_from_ma 0 (1 / 2) = some y ∧ |y - 0| ≤ 1 / 100) ∧
    (∃ y, lookup_ta_from_ma Real.pi (1 / 2) = some y ∧
      |y - Real.pi| ≤ 1 / 100) ∧
    (∃ y, lookup_ta_from_ma (2 * Real.pi) (1 / 2) = some y ∧ |y - 0| ≤ 1 / 100) :=
  claim_C7_boundary_identities (1 / 2) (by norm_num) (by norm_num)

/-! ## Propagator-chain invariant lemmas (claim C1) -/

lemma chainWF_new (orb : GlobalOrbit) (stamp : Nanotime) :
    ChainWF [Propagator.new orb stamp] := by
  refine ⟨by simp, List.chain'_singleton _, ?_, by simp⟩
  intro p hp e he
  simp only [List.mem_singleton] at hp
  subst hp
  simp only [Propagator.new, Propagator.endTime, Option.some.injEq] at he
  simp [Propagator.new, ← he]

lemma mem_of_getLast?_eq {α : Type} {l : List α} {a : α}
    (h : l.getLast? = some a) : a ∈ l := by
  have hm : a ∈ l.getLast? := Option.mem_def.2 h
  rcases List.mem_getLast?_eq_getLast hm with ⟨hne, rfl⟩
  exact List.getLast_mem hne

lemma chainWF_cons {a : Propagator} {L : List Propagator} (hL : ChainWF L)
    (ha : ∀ e, a.endTime = some e → a.start ≤ e) (hat : a.isTerminal)
    (hedge : ∀ b, L.head? = some b → a.endTime = some b.start) :
    ChainWF (a :: L) := by
  obtain ⟨hne, hch, hge, hdl⟩ := hL
  refine ⟨by simp, ?_, ?_, ?_⟩
  · rw [List.chain'_cons']
    exact ⟨fun b hb => hedge b (Option.mem_def.1 hb), hch⟩
  · intro p hp e he
    rcases List.mem_cons.1 hp with rfl | hp
    · exact ha e he
    · exact hge p hp e he
  · intro p hp
    cases L with
    | nil => exact absurd rfl hne
    | cons b M =>
      simp only [List.dropLast_cons₂, List.mem_cons] at hp
      rcases hp with rfl | hp
      · exact hat
      · exact hdl p (by simpa using hp)

lemma chainWF_tail {p q : Propagator} {rest : List Propagator}
    (h : ChainWF (p :: q :: rest)) : ChainWF (q :: rest) := by
  obtain ⟨_, hch, hge, hdl⟩ := h
  refine ⟨by simp, hch.tail, ?_, ?_⟩
  · intro r hr e he
    exact hge r (List.mem_cons_of_mem _ hr) e he
  · intro r hr
    exact hdl r (by simp only [List.dropLast_cons₂, List.mem_cons]; right; exact hr)

lemma pruneProps_wf (stamp : Nanotime) :
    ∀ ps : List Propagator, ChainWF ps → ChainWF (pruneProps stamp ps) := by
  intro ps
  induction ps with
  | nil => intro h; exact absurd rfl h.1
  | cons p rest ih =>
    intro h
    cases rest with
    | nil => exact h
    | cons q rest' =>
      rw [pruneProps]
      split
      · exact ih (chainWF_tail h)
      · exact h

lemma chainWF_update_last :
    ∀ {ps : List Propagator} {p p' : Propagator}, ChainWF ps →
      ps.getLast? = some p → p'.start = p.start →
      ((∀ e, p.endTime = some e → p.start ≤ e) →
        ∀ e, p'.endTime = some e → p'.start ≤ e) →
      ChainWF (ps.dropLast ++ [p'])
  | [], p, p', h, hl, _, _ => by simp at hl
  | [a], p, p', h, hl, hs, he => by
    simp only [List.getLast?_singleton, Option.some.injEq] at hl
    subst hl
    refine ⟨by simp, ?_, ?_, ?_⟩
    · simpa using List.chain'_singleton p'
    · intro r hr e hre
      simp only [List.dropLast_single, List.nil_append, List.mem_singleton] at hr
      subst hr
      exact he (fun e' he' => h.2.2.1 a (by simp) e' he') e hre
    · simp
  | a :: b :: rest, p, p', h, hl, hs, he => by
    have hl' : (b :: rest).getLast? = some p := by
      simpa using hl
    have ih := chainWF_update_last (chainWF_tail h) hl' hs he
    have hgoal :
        (a :: b :: rest).dropLast ++ [p'] =
          a :: ((b :: rest).dropLast ++ [p']) := by
      simp
    rw [hgoal]
    refine chainWF_cons ih ?_ ?_ ?_
    · exact fun e hee => h.2.2.1 a (by simp) e hee
    · exact h.2.2.2 a (by simp)
    · intro c hc
      have hedge : a.endTime = some b.start :=
        (List.chain'_cons.1 h.2.1).1
      cases rest with
      | nil =>
        simp only [List.dropLast_single, List.nil_append, List.head?_cons,
          Option.some.injEq] at hc
        subst hc
        simp only [List.getLast?_singleton, Option.some.injEq] at hl'
        subst hl'
        rw [hedge, hs]
      | cons d rest' =>
        simp only [List.dropLast_cons₂, List.cons_append, List.head?_cons,
          Option.some.injEq] at hc
        subst hc
        exact hedge

lemma chainWF_append_last :
    ∀ {ps : List Propagator} {q : Propagator}, ChainWF ps →
      (∀ p, ps.getLast? = some p → p.isTerminal ∧ p.endTime = some q.start) →
      (∀ e, q.endTime = some e → q.start ≤ e) →
      ChainWF (ps ++ [q])
  | [], q, h, _, _ => absurd rfl h.1
  | [a], q, h, hlast, hq => by
    obtain ⟨hat, hae⟩ := hlast a (by simp)
    have hQ : ChainWF [q] := by
      refine ⟨by simp, List.chain'_singleton _, ?_, by simp⟩
      intro r hr e hre
      simp only [List.mem_singleton] at hr
      subst hr
      exact hq e hre
    show ChainWF (a :: [q])
    refine chainWF_cons hQ ?_ hat ?_
    · exact fun e hee => h.2.2.1 a (by simp) e hee
    · intro c hc
      simp only [List.head?_cons, Option.some.injEq] at hc
      subst hc
      exact hae
  | a :: b :: rest, q, h, hlast, hq => by
    have ih := chainWF_append_last (chainWF_tail h)
      (fun p hp => hlast p (by simpa using hp)) hq
    rw [show (a :: b :: rest) ++ [q] = a :: ((b :: rest) ++ [q]) from rfl]
    refine chainWF_cons ih ?_ ?_ ?_
    · exact fun e hee => h.2.2.1 a (by simp) e hee
    · exact h.2.2.2 a (by simp)
    · intro c hc
      simp only [List.cons_append, List.head?_cons, Option.some.injEq] at hc
      subst hc
      exact (List.chain'_cons.1 h.2.1).1

lemma propagateLoop_wf {M : SolverModel} (hf : FocuSpec M) (hx : NextSpec M)
    (planets : PlanetarySystem) (stamp t : Nanotime) :
    ∀ (fuel : ℕ) (ps : List Propagator), ChainWF ps →
      ChainWF (propagateLoop M planets stamp t fuel ps).1 := by
  intro fuel
  induction fuel with
  | zero => intro ps h; exact h
  | succ n ih =>
    intro ps h
    rw [propagateLoop]
    split
    · exact h
    · next prop hlast =>
      split
      · exact h
      · next bd pv pid pl hlook =>
        dsimp only
        split
        · exact h
        · next prop' hfo =>
          obtain ⟨hs, hge⟩ := hf _ _ _ _ hfo
          have hmem : prop ∈ ps := mem_of_getLast?_eq hlast
          have hwf' : ChainWF (ps.dropLast ++ [prop']) :=
            chainWF_update_last h hlast hs
              (fun _ => hge (fun e he => h.2.2.1 prop hmem e he))
          have hlast' : (ps.dropLast ++ [prop']).getLast? = some prop' :=
            List.getLast?_concat _
          split
          · exact hwf'
          · exact hwf'
          · next e hhz =>
            split
            · exact hwf'
            · exact ih _ hwf'
          · next e ev hhz =>
            have hterm : prop'.isTerminal := by
              simp [Propagator.isTerminal, hhz]
            have hend : prop'.endTime = some e := by
              simp [Propagator.endTime, hhz]
            split
            · exact hwf'
            · split
              · exact hwf'
              · next nxt hnx =>
                obtain ⟨hstart, hqe⟩ := hx _ _ _ hnx
                have hns : nxt.start = e := hstart e ev hhz
                refine ih _ (chainWF_append_last hwf' ?_ hqe)
                intro p hp
                rw [hlast'] at hp
                cases hp
                exact ⟨hterm, by rw [hend, hns]⟩
              · next e' hnx =>
                refine chainWF_append_last hwf' ?_ ?_
                · intro p hp
                  rw [hlast'] at hp
                  cases hp
                  exact ⟨hterm, by rw [hend]⟩
                · intro e2 he2
                  simp only [Propagator.endTime, Option.some.injEq] at he2
                  subst he2
                  exact le_refl _

lemma chainWF_pairwise :
    ∀ {ps : List Propagator}, ChainWF ps →
      List.Pairwise
        (fun p q => p.isTerminal ∧ ∃ e, p.endTime = some e ∧ e ≤ q.start) ps
  | [], _ => List.Pairwise.nil
  | [p], _ => by simp
  | p :: q :: rest, h => by
    have hedge : p.endTime = some q.start := (List.chain'_cons.1 h.2.1).1
    have hterm : p.isTerminal := h.2.2.2 p (by simp)
    have ih := chainWF_pairwise (chainWF_tail h)
    refine List.Pairwise.cons ?_ ih
    intro r hr
    rcases List.mem_cons.1 hr with rfl | hr
    · exact ⟨hterm, r.start, hedge, le_refl _⟩
    · obtain ⟨_, e', he', hle⟩ := (List.pairwise_cons.1 ih).1 r hr
      have hqe : q.start ≤ e' := h.2.2.1 q (by simp) e' he'
      exact ⟨hterm, q.start, hedge, le_trans hqe hle⟩

lemma chainWF_starts_le {ps : List Propagator} (h : ChainWF ps) :
    List.Pairwise (fun p q => p.start ≤ q.start) ps := by
  refine List.Pairwise.imp_of_mem ?_ (chainWF_pairwise h)
  rintro p q hp _ ⟨_, e, hend, hle⟩
  exact le_trans (h.2.2.1 p hp e hend) hle

lemma isActive_start_le {p : Propagator} {t : Nanotime}
    (h : p.isActive t = true) : p.start ≤ t := by
  unfold Propagator.isActive at h
  split at h <;> simp_all

lemma isActive_lt_end {p : Propagator} {t e : Nanotime}
    (hterm : p.isTerminal) (hend : p.endTime = some e)
    (h : p.isActive t = true) : t < e := by
  unfold Propagator.isTerminal at hterm
  unfold Propagator.endTime at hend
  unfold Propagator.isActive at h
  split at h <;> simp_all

lemma count_le_one_of_pairwise {t : Nanotime} :
    ∀ {l : List Propagator},
      List.Pairwise
        (fun p q => p.isActive t = true → q.isActive t = true → False) l →
      (l.filter (fun p => p.isActive t)).length ≤ 1
  | [], _ => by simp
  | a :: l, h => by
    obtain ⟨ha, hl⟩ := List.pairwise_cons.1 h
    by_cases hact : a.isActive t = true
    · have hnil : l.filter (fun p => p.isActive t) = [] := by
        rw [List.filter_eq_nil_iff]
        intro b hb hbact
        exact ha b hb hact (by simpa using hbact)
      simp [List.filter_cons, hact, hnil]
    · have hrec := count_le_one_of_pairwise hl
      simpa [List.filter_cons, hact] using hrec

lemma chainWF_activeCount {ps : List Propagator} (h : ChainWF ps)
    (t : Nanotime) : activeCount ps t ≤ 1 := by
  unfold activeCount
  refine count_le_one_of_pairwise ?_
  refine (chainWF_pairwise h).imp fun {p q} hr hp hq => ?_
  obtain ⟨hterm, e, hend, hle⟩ := hr
  have h1 := isActive_lt_end hterm hend hp
  have h2 := isActive_start_le hq
  exact absurd h1 (not_lt.2 (le_trans hle h2))

/-! ## Impulsive-burn lemmas (claims C1, C3, C8, C9) -/

lemma Vec2.add_def (a b : Vec2) : a + b = ⟨a.x + b.x, a.y + b.y⟩ := rfl

lemma PV.add_eq (a b : PV) : a + b = ⟨a.pos + b.pos, a.vel + b.vel⟩ := rfl

lemma add_velOnly_zero (pv : PV) : pv + PV.velOnly Vec2.zero = pv := by
  obtain ⟨⟨a, b⟩, ⟨c, d⟩⟩ := pv
  simp [PV.add_eq, Vec2.add_def, PV.velOnly, Vec2.zero]

/-- The unfolding of impulsive_burn with the vehicle-only intermediate
state made explicit; the propagator lookup ignores the vehicle. -/
lemma impulsiveBurn_eq (M : SolverModel) (o : Orbiter) (stamp : Nanotime)
    (dv : Vec2) :
    o.impulsiveBurn M stamp dv =
      (if dv.length > o.remainingDv then (o, none)
      else
        (let spentv : ℕ :=
          (round ((o.fuelMass -
            (mass_after_maneuver o.exhaustVelocity o.mass dv.length -
              o.dryMass)) * 1000)).toNat
        let o1 : Orbiter := { o with vehicle := o.vehicle.takeFuel spentv }
        match o.propagatorAt stamp with
        | none => (o1, none)
        | some prop =>
          match M.conic prop.orbit.orbit stamp with
          | none => (o1, none)
          | some pv =>
            match SparseOrbit.fromPV (pv + PV.velOnly dv)
                prop.orbit.orbit.body stamp with
            | none => (o1, none)
            | some orbit =>
              ({ o1 with props := [Propagator.new ⟨prop.parent, orbit⟩ stamp] },
                some ()))) := rfl

lemma impulsiveBurn_fuel_fail {M : SolverModel} {o : Orbiter}
    {stamp : Nanotime} {dv : Vec2} (h : dv.length > o.remainingDv) :
    o.impulsiveBurn M stamp dv = (o, none) := by
  rw [impulsiveBurn_eq, if_pos h]

lemma impulsiveBurn_none_of_no_active {M : SolverModel} {o : Orbiter}
    {stamp : Nanotime} {dv : Vec2} (h : o.propagatorAt stamp = none) :
    (o.impulsiveBurn M stamp dv).2 = none := by
  rw [impulsiveBurn_eq]
  split
  · rfl
  · rw [h]

lemma impulsiveBurn_some {M : SolverModel} {o : Orbiter} {stamp : Nanotime}
    {dv : Vec2} (h : (o.impulsiveBurn M stamp dv).2 = some ()) :
    ∃ p pv orbit,
      o.propagatorAt stamp = some p ∧
      M.conic p.orbit.orbit stamp = some pv ∧
      SparseOrbit.fromPV (pv + PV.velOnly dv) p.orbit.orbit.body stamp =
        some orbit ∧
      (o.impulsiveBurn M stamp dv).1.props =
        [Propagator.new ⟨p.parent, orbit⟩ stamp] := by
  rw [impulsiveBurn_eq] at h ⊢
  split at h
  · simp at h
  · next hfuel =>
    rw [if_neg hfuel]
    cases hpat : o.propagatorAt stamp with
    | none => simp [hpat] at h
    | some prop =>
      simp only [hpat] at h ⊢
      cases hpv : M.conic prop.orbit.orbit stamp with
      | none => simp [hpv] at h
      | some pv =>
        simp only [hpv] at h ⊢
        cases horb : SparseOrbit.fromPV (pv + PV.velOnly dv)
            prop.orbit.orbit.body stamp with
        | none => simp [horb] at h
        | some orbit =>
          simp only [horb] at h ⊢
          exact ⟨prop, pv, orbit, rfl, hpv, horb, rfl⟩

lemma impulsiveBurn_none_props {M : SolverModel} {o : Orbiter}
    {stamp : Nanotime} {dv : Vec2}
    (h : (o.impulsiveBurn M stamp dv).2 = none) :
    (o.impulsiveBurn M stamp dv).1.props = o.props := by
  rw [impulsiveBurn_eq] at h ⊢
  split at h
  · next hcond => rw [if_pos hcond]
  · next hfuel =>
    rw [if_neg hfuel]
    cases hpat : o.propagatorAt stamp with
    | none => simp only [hpat]
    | some prop =>
      simp only [hpat] at h ⊢
      cases hpv : M.conic prop.orbit.orbit stamp with
      | none => simp only [hpv]
      | some pv =>
        simp only [hpv] at h ⊢
        cases horb : SparseOrbit.fromPV (pv + PV.velOnly dv)
            prop.orbit.orbit.body stamp with
        | none => simp only [horb]
        | some orbit => simp [horb] at h

/-- Claim C1: for a well-formed orbiter, after any single successful
call to propagate_to, and likewise after any single successful call
to impulsive_burn, the propagator chain is well-formed: contiguous
(each segment's start equals its predecessor's end exactly), with
non-decreasing start times, and at most one propagator active at any
queried time. The two implications are independent: each needs only
its own call to succeed. -/
theorem claim_C1_chain_invariant (M : SolverModel) (hf : FocuSpec M)
    (hx : NextSpec M) (o : Orbiter) (stamp futureDur : Nanotime)
    (planets : PlanetarySystem) (dv : Vec2) (hwf : ChainWF o.props) :
    ((o.propagateTo M stamp futureDur planets).2 = none →
      ChainWF (o.propagateTo M stamp futureDur planets).1.props ∧
      List.Chain' (fun p q => p.endTime = some q.start)
        (o.propagateTo M stamp futureDur planets).1.props ∧
      List.Pairwise (fun p q => p.start ≤ q.start)
        (o.propagateTo M stamp futureDur planets).1.props ∧
      ∀ t, activeCount (o.propagateTo M stamp futureDur planets).1.props t ≤ 1) ∧
    ((o.impulsiveBurn M stamp dv).2 = some () →
      ChainWF (o.impulsiveBurn M stamp dv).1.props ∧
      List.Chain' (fun p q => p.endTime = some q.start)
        (o.impulsiveBurn M stamp dv).1.props ∧
      List.Pairwise (fun p q => p.start ≤ q.start)
        (o.impulsiveBurn M stamp dv).1.props ∧
      ∀ t, activeCount (o.impulsiveBurn M stamp dv).1.props t ≤ 1) := by
  constructor
  · intro _
    have h1 : ChainWF (o.propagateTo M stamp futureDur planets).1.props :=
      propagateLoop_wf hf hx planets stamp (stamp + futureDur) 10
        (pruneProps stamp o.props) (pruneProps_wf stamp o.props hwf)
    exact ⟨h1, h1.2.1, chainWF_starts_le h1, chainWF_activeCount h1⟩
  · intro hburn
    obtain ⟨p, pv, orbit, _, _, _, hprops⟩ := impulsiveBurn_some hburn
    have h2 : ChainWF (o.impulsiveBurn M stamp dv).1.props := by
      rw [hprops]
      exact chainWF_new _ _
    exact ⟨h2, h2.2.1, chainWF_starts_le h2, chainWF_activeCount h2⟩

lemma focuSpec_MX : FocuSpec MX := by
  intro p t bs p' h
  simp only [MX] at h
  cases h
  exact ⟨rfl, fun _ e he => by simp [Propagator.endTime] at he⟩

lemma nextSpec_MX : NextSpec MX := by
  intro p pl q h
  simp [MX] at h

lemma vec2_zero_length : Vec2.zero.length = 0 := by
  unfold Vec2.length Vec2.zero
  norm_num

lemma orbiterW_rd_nonneg : 0 ≤ orbiterW.remainingDv := by
  show 0 ≤ rocket_equation 1700 (300 + ((800000 : ℕ) : ℝ) / 1000) 300
  unfold rocket_equation
  apply mul_nonneg (by norm_num)
  apply Real.log_nonneg
  norm_num

lemma burnW_fuel_ok : ¬ (Vec2.zero.length > orbiterW.remainingDv) := by
  rw [vec2_zero_length]
  exact not_lt.2 orbiterW_rd_nonneg

lemma propagatorAtW : orbiterW.propagatorAt 0 = some propW := rfl

lemma conicW : MX.conic propW.orbit.orbit 0 = some pvX := rfl

lemma fromPVW :
    SparseOrbit.fromPV (pvX + PV.velOnly Vec2.zero) propW.orbit.orbit.body 0 =
      some ⟨propW.orbit.orbit.body, 0, pvX + PV.velOnly Vec2.zero⟩ := by
  have h : cross2d (pvX + PV.velOnly Vec2.zero).pos
      (pvX + PV.velOnly Vec2.zero).vel ≠ 0 := by
    norm_num [cross2d, pvX, PV.velOnly, Vec2.zero, PV.add_eq, Vec2.add_def]
  unfold SparseOrbit.fromPV
  rw [if_neg h]

lemma burnW_some : (orbiterW.impulsiveBurn MX 0 Vec2.zero).2 = some () := by
  rw [impulsiveBurn_eq, if_neg burnW_fuel_ok]
  simp only [propagatorAtW, conicW, fromPVW]

/-- Witness for C1 at a concrete orbiter, solver model and planetary
system on which both propagate_to and impulsive_burn succeed. -/
theorem claim_C1_witness :
    (ChainWF (orbiterW.propagateTo MX 0 0 planetsRoot).1.props ∧
      List.Chain' (fun p q => p.endTime = some q.start)
        (orbiterW.propagateTo MX 0 0 planetsRoot).1.props ∧
      List.Pairwise (fun p q => p.start ≤ q.start)
        (orbiterW.propagateTo MX 0 0 planetsRoot).1.props ∧
      ∀ t, activeCount (orbiterW.propagateTo MX 0 0 planetsRoot).1.props t ≤ 1) ∧
    (ChainWF (orbiterW.impulsiveBurn MX 0 Vec2.zero).1.props ∧
      List.Chain' (fun p q => p.endTime = some q.start)
        (orbiterW.impulsiveBurn MX 0 Vec2.zero).1.props ∧
      List.Pairwise (fun p q => p.start ≤ q.start)
        (orbiterW.impulsiveBurn MX 0 Vec2.zero).1.props ∧
      ∀ t, activeCount (orbiterW.impulsiveBurn MX 0 Vec2.zero).1.props t ≤ 1) := by
  have h := claim_C1_chain_invariant MX focuSpec_MX nextSpec_MX orbiterW 0 0
    planetsRoot Vec2.zero (chainWF_new ⟨0, orbitX⟩ 0)
  exact ⟨h.1 rfl, h.2 burnW_some⟩

/-- Claim C3: impulsive_burn evaluates the active propagator's state
at the stamp, adds the delta-v to the velocity, and on success
replaces the whole chain by exactly one fresh propagator starting at
the stamp from the resulting orbit; it returns None when there is no
active propagator at the stamp, and also when the delta-v magnitude
exceeds the remaining delta-v budget. -/
theorem claim_C3_impulsive_burn (M : SolverModel) (o : Orbiter)
    (stamp : Nanotime) (dv : Vec2) :
    ((o.impulsiveBurn M stamp dv).2 = some () →
      ∃ p pv orbit,
        o.propagatorAt stamp = some p ∧
        M.conic p.orbit.orbit stamp = some pv ∧
        SparseOrbit.fromPV (pv + PV.velOnly dv) p.orbit.orbit.body stamp =
          some orbit ∧
        (o.impulsiveBurn M stamp dv).1.props =
          [Propagator.new ⟨p.parent, orbit⟩ stamp]) ∧
    (o.propagatorAt stamp = none → (o.impulsiveBurn M stamp dv).2 = none) ∧
    (dv.length > o.remainingDv → (o.impulsiveBurn M stamp dv).2 = none) :=
  ⟨fun h => impulsiveBurn_some h,
   fun h => impulsiveBurn_none_of_no_active h,
   fun h => by rw [impulsiveBurn_fuel_fail h]⟩

lemma orbiterDry_rd : orbiterDry.remainingDv = 0 := by
  show rocket_equation 1700 (300 + ((0 : ℕ) : ℝ) / 1000) 300 = 0
  unfold rocket_equation
  rw [show ((300 : ℝ) + ((0 : ℕ) : ℝ) / 1000) / 300 = 1 from by norm_num,
    Real.log_one, mul_zero]

lemma vec34_length : (Vec2.length ⟨3, 4⟩) = 5 := by
  unfold Vec2.length
  rw [show ((3 : ℝ) ^ 2 + (4 : ℝ) ^ 2) = 5 ^ 2 from by norm_num]
  exact Real.sqrt_sq (by norm_num)

lemma vec34_exceeds_dry : Vec2.length ⟨3, 4⟩ > orbiterDry.remainingDv := by
  rw [vec34_length, orbiterDry_rd]
  norm_num

/-- Witness for C3: one successful burn, one burn with no active
propagator, one fuel-limited burn. -/
theorem claim_C3_witness :
    (∃ p pv orbit,
      orbiterW.propagatorAt 0 = some p ∧
      MX.conic p.orbit.orbit 0 = some pv ∧
      SparseOrbit.fromPV (pv + PV.velOnly Vec2.zero) p.orbit.orbit.body 0 =
        some orbit ∧
      (orbiterW.impulsiveBurn MX 0 Vec2.zero).1.props =
        [Propagator.new ⟨p.parent, orbit⟩ 0]) ∧
    (orbiterNoProps.impulsiveBurn MX 0 Vec2.zero).2 = none ∧
    (orbiterDry.impulsiveBurn MX 0 ⟨3, 4⟩).2 = none :=
  ⟨(claim_C3_impulsive_burn MX orbiterW 0 Vec2.zero).1 burnW_some,
   (claim_C3_impulsive_burn MX orbiterNoProps 0 Vec2.zero).2.1 rfl,
   (claim_C3_impulsive_burn MX orbiterDry 0 ⟨3, 4⟩).2.2 vec34_exceeds_dry⟩

/-- Claim C9: whenever impulsive_burn returns None the propagator
chain is left exactly as it was, and when the failure is the fuel
check (delta-v exceeding the remaining budget) the entire orbiter,
fuel inventory included, is unchanged, because that check precedes the
fuel deduction. -/
theorem claim_C9_burn_failure_atomicity (M : SolverModel) (o : Orbiter)
    (stamp : Nanotime) (dv : Vec2) :
    ((o.impulsiveBurn M stamp dv).2 = none →
      (o.impulsiveBurn M stamp dv).1.props = o.props) ∧
    (dv.length > o.remainingDv → o.impulsiveBurn M stamp dv = (o, none)) :=
  ⟨fun h => impulsiveBurn_none_props h, fun h => impulsiveBurn_fuel_fail h⟩

/-- Witness for C9: a burn failing on a missing active propagator
keeps the chain; a fuel-limited burn keeps the whole orbiter. -/
theorem claim_C9_witness :
    ((orbiterNoProps.impulsiveBurn MX 0 Vec2.zero).1.props =
      orbiterNoProps.props) ∧
    (orbiterDry.impulsiveBurn MX 0 ⟨3, 4⟩ = (orbiterDry, none)) :=
  ⟨(claim_C9_burn_failure_atomicity MX orbiterNoProps 0 Vec2.zero).1
      (impulsiveBurn_none_of_no_active rfl),
   (claim_C9_burn_failure_atomicity MX orbiterDry 0 ⟨3, 4⟩).2
      vec34_exceeds_dry⟩

/-- Claim C8: for an orbiter with an active propagator at t whose
state evaluates and is nondegenerate, and with enough fuel for the
null burn, impulsive_burn (t, zero) succeeds and the local position
and velocity at t are unchanged, even though the chain was reset;
exact in the real-valued model, hence within any tolerance. -/
theorem claim_C8_zero_dv_idempotence (M : SolverModel)
    (hrt : ∀ sorb : SparseOrbit, M.conic sorb sorb.epoch = some sorb.pv0)
    (o : Orbiter) (t : Nanotime) (p : Propagator) (pv : PV)
    (hfuel : ¬ Vec2.zero.length > o.remainingDv)
    (hp : o.propagatorAt t = some p)
    (hpv : M.conic p.orbit.orbit t = some pv)
    (hnd : cross2d (pv + PV.velOnly Vec2.zero).pos
      (pv + PV.velOnly Vec2.zero).vel ≠ 0) :
    (o.impulsiveBurn M t Vec2.zero).2 = some () ∧
    (o.impulsiveBurn M t Vec2.zero).1.pvl M t = o.pvl M t ∧
    o.pvl M t = some pv := by
  have horb : SparseOrbit.fromPV (pv + PV.velOnly Vec2.zero)
      p.orbit.orbit.body t =
      some ⟨p.orbit.orbit.body, t, pv + PV.velOnly Vec2.zero⟩ := by
    unfold SparseOrbit.fromPV
    rw [if_neg hnd]
  have hsucc : (o.impulsiveBurn M t Vec2.zero).2 = some () := by
    rw [impulsiveBurn_eq, if_neg hfuel]
    simp only [hp, hpv, horb]
  have hprops : (o.impulsiveBurn M t Vec2.zero).1.props =
      [Propagator.new
        ⟨p.parent, ⟨p.orbit.orbit.body, t, pv + PV.velOnly Vec2.zero⟩⟩ t] := by
    rw [impulsiveBurn_eq, if_neg hfuel]
    simp only [hp, hpv, horb]
  have hbefore : o.pvl M t = some pv := by
    unfold Orbiter.pvl
    simp only [hp]
    exact hpv
  refine ⟨hsucc, ?_, hbefore⟩
  have hpat' : (o.impulsiveBurn M t Vec2.zero).1.propagatorAt t =
      some (Propagator.new
        ⟨p.parent, ⟨p.orbit.orbit.body, t, pv + PV.velOnly Vec2.zero⟩⟩ t) := by
    unfold Orbiter.propagatorAt
    rw [hprops]
    simp [Propagator.new, Propagator.isActive]
  have hafter : (o.impulsiveBurn M t Vec2.zero).1.pvl M t =
      some (pv + PV.velOnly Vec2.zero) := by
    unfold Orbiter.pvl
    rw [hpat']
    exact hrt ⟨p.orbit.orbit.body, t, pv + PV.velOnly Vec2.zero⟩
  rw [hafter, hbefore, add_velOnly_zero]

/-- Witness for C8 at the concrete orbiter orbiterW. -/
theorem claim_C8_witness :
    (orbiterW.impulsiveBurn MX 0 Vec2.zero).2 = some () ∧
    (orbiterW.impulsiveBurn MX 0 Vec2.zero).1.pvl MX 0 = orbiterW.pvl MX 0 ∧
    orbiterW.pvl MX 0 = some pvX :=
  claim_C8_zero_dv_idempotence MX (fun _ => rfl) orbiterW 0 propW pvX
    burnW_fuel_ok propagatorAtW conicW
    (by norm_num [cross2d, pvX, PV.velOnly, Vec2.zero, PV.add_eq, Vec2.add_def])

/-! ## propagate_to behaviour (claim C2) -/

lemma pruneProps_spec (stamp : Nanotime) :
    ∀ ps : List Propagator,
      ∃ k, pruneProps stamp ps = ps.drop k ∧
        (∀ p ∈ ps.take k, p.endTime.getD stamp < stamp) ∧
        (1 < (pruneProps stamp ps).length →
          ∀ q, (pruneProps stamp ps).head? = some q →
            ¬ q.endTime.getD stamp < stamp) := by
  intro ps
  induction ps with
  | nil =>
    refine ⟨0, rfl, by simp, ?_⟩
    intro hlen
    rw [show pruneProps stamp [] = [] from rfl] at hlen
    simp at hlen
  | cons p rest ih =>
    cases rest with
    | nil =>
      refine ⟨0, rfl, by simp, ?_⟩
      intro hlen
      rw [show pruneProps stamp [p] = [p] from rfl] at hlen
      simp at hlen
    | cons q rest' =>
      by_cases hc : p.endTime.getD stamp < stamp
      · obtain ⟨k, hk, htake, hhead⟩ := ih
        refine ⟨k + 1, ?_, ?_, ?_⟩
        · rw [pruneProps, if_pos hc]
          exact hk
        · intro r hr
          simp only [List.take_succ_cons, List.mem_cons] at hr
          rcases hr with rfl | hr
          · exact hc
          · exact htake r hr
        · rw [pruneProps, if_pos hc]
          exact hhead
      · refine ⟨0, ?_, by simp, ?_⟩
        · rw [pruneProps, if_neg hc, List.drop_zero]
        · rw [pruneProps, if_neg hc]
          intro _ r hr
          simp only [List.head?_cons, Option.some.injEq] at hr
          subst hr
          exact hc

lemma pruneProps_ne_nil (stamp : Nanotime) :
    ∀ ps : List Propagator, ps ≠ [] → pruneProps stamp ps ≠ [] := by
  intro ps
  induction ps with
  | nil => exact fun h => absurd rfl h
  | cons p rest ih =>
    intro _
    cases rest with
    | nil => simp [pruneProps]
    | cons q rest' =>
      rw [pruneProps]
      split
      · exact ih (by simp)
      · simp

lemma propagateLoop_ok_settled (M : SolverModel) (planets : PlanetarySystem)
    (stamp t : Nanotime) :
    ∀ (fuel : ℕ) (ps : List Propagator),
      (propagateLoop M planets stamp t fuel ps).2 = none →
      settledAt M planets t (propagateLoop M planets stamp t fuel ps).1 := by
  intro fuel
  induction fuel with
  | zero => intro ps h; simp [propagateLoop] at h
  | succ n ih =>
    intro ps h
    rw [propagateLoop] at h ⊢
    split
    · next hlast => simp [hlast] at h
    · next prop hlast =>
      simp only [hlast] at h
      split
      · next hlook => simp [hlook] at h
      · next bd pv pid pl hlook =>
        simp only [hlook] at h
        dsimp only at h ⊢
        split
        · next e hfo => simp [hfo] at h
        · next prop' hfo =>
          simp only [hfo] at h
          split
          · next hhz =>
            simp only [settledAt, List.getLast?_concat, hhz]
          · next e ev hhz =>
            simp only [settledAt, List.getLast?_concat, hhz]
          · next e hhz =>
            simp only [hhz] at h
            split
            · next hgt =>
              simp only [settledAt, List.getLast?_concat, hhz]
              exact hgt
            · next hgt =>
              rw [if_neg hgt] at h
              exact ih _ h
          · next e ev hhz =>
            simp only [hhz] at h
            split
            · next hgt =>
              simp only [settledAt, List.getLast?_concat, hhz]
              exact Or.inl hgt
            · next hgt =>
              rw [if_neg hgt] at h
              split
              · next hnx =>
                simp only [settledAt, List.getLast?_concat, hhz]
                exact Or.inr hnx
              · next nxt hnx =>
                simp only [hnx] at h
                exact ih _ h
              · next e2 hnx =>
                simp only [settledAt, List.getLast?_concat]

lemma propagateLoop_length (M : SolverModel) (planets : PlanetarySystem)
    (stamp t : Nanotime) :
    ∀ (fuel : ℕ) (ps : List Propagator),
      (propagateLoop M planets stamp t fuel ps).1.length ≤ ps.length + fuel := by
  intro fuel
  induction fuel with
  | zero => intro ps; simp [propagateLoop]
  | succ n ih =>
    intro ps
    rw [propagateLoop]
    split
    · simp
    · next prop hlast =>
      have hne : ps ≠ [] := by
        intro hnil
        rw [hnil] at hlast
        simp at hlast
      have hlen : (ps.dropLast ++ [prop]).length = ps.length := by
        have h0 : 0 < ps.length := List.length_pos.2 hne
        simp [List.length_dropLast]
        omega
      split
      · simp
      · next bd pv pid pl hlook =>
        dsimp only
        split
        · simp
        · next prop' hfo =>
          have hlen' : (ps.dropLast ++ [prop']).length = ps.length := by
            have h0 : 0 < ps.length := List.length_pos.2 hne
            simp [List.length_dropLast]
            omega
          split
          · simp [hlen']
          · simp [hlen']
          · split
            · simp [hlen']
            · calc (propagateLoop M planets stamp t n
                    (ps.dropLast ++ [prop'])).1.length
                  ≤ (ps.dropLast ++ [prop']).length + n := ih _
                _ ≤ ps.length + (n + 1) := by rw [hlen']; omega
          · split
            · simp [hlen']
            · split
              · simp [hlen']
              · next nxt hnx =>
                calc (propagateLoop M planets stamp t n
                      (ps.dropLast ++ [prop'] ++ [nxt])).1.length
                    ≤ (ps.dropLast ++ [prop'] ++ [nxt]).length + n := ih _
                  _ ≤ ps.length + (n + 1) := by
                      simp only [List.length_append, List.length_cons,
                        List.length_nil]
                      have h0 : 0 < ps.length := List.length_pos.2 hne
                      simp [List.length_dropLast]
                      omega
              · next e' hnx =>
                simp only [List.length_append, List.length_cons, List.length_nil]
                have h0 : 0 < ps.length := List.length_pos.2 hne
                simp [List.length_dropLast]
                omega

/-- Claim C2 (amended): propagate_to first prunes stale propagators
from the front of the chain (while more than one segment remains and
the front one ends before the stamp — never the sole remaining
segment), then extends the chain at the back for at most 10
iterations; on Ok the chain is settled: its horizon reaches past
stamp + future_dur, or is indefinite or terminating, or is an
unresolvable transition; the chain grows by at most 10 segments.  (It
returns Err(TooManyIterations) when the 10-iteration budget runs out,
but can also fail with Err(Lookup) or a solver error, so Ok is not the
only alternative — see the counterexample.) -/
theorem claim_C2_propagate_to (M : SolverModel) (o : Orbiter)
    (stamp futureDur : Nanotime) (planets : PlanetarySystem)
    (hok : (o.propagateTo M stamp futureDur planets).2 = none) :
    (∃ k, pruneProps stamp o.props = o.props.drop k ∧
      (∀ p ∈ o.props.take k, p.endTime.getD stamp < stamp) ∧
      (1 < (pruneProps stamp o.props).length →
        ∀ q, (pruneProps stamp o.props).head? = some q →
          ¬ q.endTime.getD stamp < stamp)) ∧
    (o.props ≠ [] → pruneProps stamp o.props ≠ []) ∧
    settledAt M planets (stamp + futureDur)
      (o.propagateTo M stamp futureDur planets).1.props ∧
    (o.propagateTo M stamp futureDur planets).1.props.length ≤
      (pruneProps stamp o.props).length + 10 :=
  ⟨pruneProps_spec stamp o.props,
   pruneProps_ne_nil stamp o.props,
   propagateLoop_ok_settled M planets stamp (stamp + futureDur) 10
     (pruneProps stamp o.props) hok,
   propagateLoop_length M planets stamp (stamp + futureDur) 10
     (pruneProps stamp o.props)⟩

/-- Witness for the amended C2 on a concrete successful run. -/
theorem claim_C2_witness :
    (∃ k, pruneProps 0 orbiterW.props = orbiterW.props.drop k ∧
      (∀ p ∈ orbiterW.props.take k, p.endTime.getD 0 < 0) ∧
      (1 < (pruneProps 0 orbiterW.props).length →
        ∀ q, (pruneProps 0 orbiterW.props).head? = some q →
          ¬ q.endTime.getD 0 < 0)) ∧
    (orbiterW.props ≠ [] → pruneProps 0 orbiterW.props ≠ []) ∧
    settledAt MX planetsRoot (0 + 0)
      (orbiterW.propagateTo MX 0 0 planetsRoot).1.props ∧
    (orbiterW.propagateTo MX 0 0 planetsRoot).1.props.length ≤
      (pruneProps 0 orbiterW.props).length + 10 :=
  claim_C2_propagate_to MX orbiterW 0 0 planetsRoot rfl

/-- Counterexample to C2 as stated: the claim allows only Ok or
Err(TooManyIterations), but a propagator whose parent body cannot be
resolved makes propagate_to return Err(Lookup) at once; and the
pruning keeps a sole remaining propagator even when its end time is
before the stamp (the while loop requires more than one segment). -/
theorem claim_C2_counterexample :
    (orbiterBadParent.propagateTo MId 0 0 planetsRoot).2 =
      some PredictError.lookup ∧
    (orbiterStale.propagateTo MId 0 0 planetsRoot).2 = none ∧
    (orbiterStale.propagateTo MId 0 0 planetsRoot).1.props = [propStale] ∧
    propStale.endTime.getD 0 < 0 := by
  refine ⟨rfl, rfl, rfl, ?_⟩
  norm_num [propStale, Propagator.endTime]

/-! ## simulate (claim C4) -/

lemma retainSim_kept {σ : Type} (stamp : Nanotime) :
    ∀ l : List (EntityId × OSE σ),
      (retainSim stamp l).1 =
        l.filter (fun e => (e.2.orbiter.propagatorAt stamp).isSome) := by
  intro l
  induction l with
  | nil => rfl
  | cons e rest ih =>
    rw [retainSim, List.filter_cons]
    by_cases hact : (e.2.orbiter.propagatorAt stamp).isSome = true
    · rw [if_pos hact, if_pos hact]
      simpa using ih
    · rw [if_neg hact, if_neg hact]
      cases hp : e.2.orbiter.props.getLast? with
      | some p => simp only [hp]; simpa using ih
      | none => simp only [hp]; simpa using ih

lemma retainSim_info {σ : Type} (stamp : Nanotime) :
    ∀ l : List (EntityId × OSE σ),
      (retainSim stamp l).2 =
        l.filterMap (fun e =>
          if (e.2.orbiter.propagatorAt stamp).isSome then none
          else (e.2.orbiter.props.getLast?).map
            (fun p => (e.1, removalInfo stamp p))) := by
  intro l
  induction l with
  | nil => rfl
  | cons e rest ih =>
    rw [retainSim, List.filterMap_cons]
    by_cases hact : (e.2.orbiter.propagatorAt stamp).isSome = true
    · rw [if_pos hact]
      simp only [if_pos hact]
      simpa using ih
    · rw [if_neg hact]
      simp only [if_neg hact]
      cases hp : e.2.orbiter.props.getLast? with
      | some p => simp only [hp, Option.map_some']; simpa using ih
      | none => simp only [hp, Option.map_none']; simpa using ih

lemma retainSim_removed_ids {σ : Type} (stamp : Nanotime) :
    ∀ l : List (EntityId × OSE σ),
      (∀ e ∈ l, e.2.orbiter.props ≠ []) →
      (retainSim stamp l).2.map Prod.fst =
        (l.filter
          (fun e => !(e.2.orbiter.propagatorAt stamp).isSome)).map Prod.fst := by
  intro l
  induction l with
  | nil => intro _; rfl
  | cons e rest ih =>
    intro hne
    rw [retainSim, List.filter_cons]
    by_cases hact : (e.2.orbiter.propagatorAt stamp).isSome = true
    · rw [if_pos hact, if_neg (by simp [hact])]
      exact ih (fun x hx => hne x (List.mem_cons_of_mem _ hx))
    · rw [if_neg hact,
        if_pos (by simp only [Bool.not_eq_true'] at hact ⊢; simpa using hact)]
      cases hp : e.2.orbiter.props.getLast? with
      | some p =>
        simp only [hp, List.map_cons]
        rw [ih (fun x hx => hne x (List.mem_cons_of_mem _ hx))]
      | none =>
        exact absurd (List.getLast?_eq_none_iff.1 hp)
          (hne e (List.mem_cons_self _ _))

lemma propagateLoop_ne_nil (M : SolverModel) (planets : PlanetarySystem)
    (stamp t : Nanotime) :
    ∀ (fuel : ℕ) (ps : List Propagator), ps ≠ [] →
      (propagateLoop M planets stamp t fuel ps).1 ≠ [] := by
  intro fuel
  induction fuel with
  | zero => intro ps h; exact h
  | succ n ih =>
    intro ps h
    rw [propagateLoop]
    split
    · exact h
    · next prop hlast =>
      split
      · exact h
      · next bd pv pid pl hlook =>
        dsimp only
        split
        · exact h
        · next prop' hfo =>
          split
          · simp
          · simp
          · split
            · simp
            · exact ih _ (by simp)
          · split
            · simp
            · split
              · simp
              · exact ih _ (by simp)
              · simp

lemma propagateTo_ne_nil {M : SolverModel} {o : Orbiter}
    {stamp futureDur : Nanotime} {planets : PlanetarySystem}
    (h : o.props ≠ []) :
    (o.propagateTo M stamp futureDur planets).1.props ≠ [] :=
  propagateLoop_ne_nil M planets stamp (stamp + futureDur) 10
    (pruneProps stamp o.props) (pruneProps_ne_nil stamp o.props h)

/-- Claim C4: in one call to simulate, every orbiter is advanced via
propagate_to before any orbiter is removed, with per-orbiter
propagation errors discarded so that one failure never prevents the
others' propagation; afterwards exactly the orbiters with no active
propagator at the stamp are removed, each reported with a RemovalInfo
built from its last propagator (end stamp or current stamp, event
reason or NumericalError, parent id, and orbit). -/
theorem claim_C4_simulate (M : SolverModel) {σ : Type}
    (orbiters : List (EntityId × OSE σ)) (planets : PlanetarySystem)
    (stamp futureDur : Nanotime)
    (hne : ∀ e ∈ orbiters, e.2.orbiter.props ≠ []) :
    (simulate M orbiters planets stamp futureDur).1 =
      (advancedOrbiters M orbiters planets stamp futureDur).filter
        (fun e => (e.2.orbiter.propagatorAt stamp).isSome) ∧
    (simulate M orbiters planets stamp futureDur).2 =
      (advancedOrbiters M orbiters planets stamp futureDur).filterMap
        (fun e =>
          if (e.2.orbiter.propagatorAt stamp).isSome then none
          else (e.2.orbiter.props.getLast?).map
            (fun p => (e.1, removalInfo stamp p))) ∧
    (simulate M orbiters planets stamp futureDur).2.map Prod.fst =
      ((advancedOrbiters M orbiters planets stamp futureDur).filter
        (fun e => !(e.2.orbiter.propagatorAt stamp).isSome)).map Prod.fst ∧
    ∀ e ∈ orbiters,
      (e.1, ({ e.2 with orbiter :=
        (e.2.orbiter.propagateTo M stamp futureDur planets).1 } : OSE σ)) ∈
        advancedOrbiters M orbiters planets stamp futureDur := by
  refine ⟨retainSim_kept stamp _, retainSim_info stamp _, ?_, ?_⟩
  · refine retainSim_removed_ids stamp _ ?_
    intro e he
    unfold advancedOrbiters at he
    obtain ⟨x, hx, rfl⟩ := List.mem_map.1 he
    exact propagateTo_ne_nil (hne x hx)
  · intro e he
    exact List.mem_map_of_mem _ he

/-- Witness for C4 on a two-entity scenario (one kept, one removed). -/
theorem claim_C4_witness :
    (simulate MId entsW planetsRoot 0 0).1 =
      (advancedOrbiters MId entsW planetsRoot 0 0).filter
        (fun e => (e.2.orbiter.propagatorAt 0).isSome) ∧
    (simulate MId entsW planetsRoot 0 0).2 =
      (advancedOrbiters MId entsW planetsRoot 0 0).filterMap
        (fun e =>
          if (e.2.orbiter.propagatorAt 0).isSome then none
          else (e.2.orbiter.props.getLast?).map
            (fun p => (e.1, removalInfo 0 p))) ∧
    (simulate MId entsW planetsRoot 0 0).2.map Prod.fst =
      ((advancedOrbiters MId entsW planetsRoot 0 0).filter
        (fun e => !(e.2.orbiter.propagatorAt 0).isSome)).map Prod.fst ∧
    ∀ e ∈ entsW,
      (e.1, ({ e.2 with orbiter :=
        (e.2.orbiter.propagateTo MId 0 0 planetsRoot).1 } : OSE Unit)) ∈
        advancedOrbiters MId entsW planetsRoot 0 0 :=
  claim_C4_simulate MId entsW planetsRoot 0 0 (by
    intro e he
    rcases List.mem_cons.1 he with rfl | he2
    · simp [orbiterW]
    · rcases List.mem_cons.1 he2 with rfl | h3
      · simp [orbiterStale]
      · simp at h3)

/-! ## Universe tick driver (claim C5) -/

lemma tickLoop_spec {ρ κ : Type} (H : HostModel ρ κ)
    (signals : ControlSignals κ) (maxDur : ℚ) :
    ∀ (fuel done : ℕ) (exec : ℚ) (u : Universe ρ),
      ∃ m, m ≤ fuel ∧
        (tickLoop H signals maxDur fuel done exec u).2.1 = done + m ∧
        (tickLoop H signals maxDur fuel done exec u).1.stamp =
          u.stamp + H.dt * m ∧
        (m < fuel → H.elapsedAt (done + m) > maxDur) ∧
        (∀ k, done < k → k < done + m → ¬ H.elapsedAt k > maxDur) := by
  intro fuel
  induction fuel with
  | zero =>
    intro done exec u
    refine ⟨0, le_refl _, by simp [tickLoop], by simp [tickLoop], ?_, ?_⟩
    · intro h
      omega
    · intro k h1 h2
      omega
  | succ n ih =>
    intro done exec u
    rw [tickLoop]
    by_cases hgt : H.elapsedAt (done + 1) > maxDur
    · rw [if_pos hgt]
      refine ⟨1, by omega, rfl, ?_, fun _ => hgt, ?_⟩
      · show u.stamp + H.dt = u.stamp + H.dt * ((1 : ℕ) : ℤ)
        simp
      · intro k h1 h2
        omega
    · rw [if_neg hgt]
      obtain ⟨m, hm, h1, h2, h3, h4⟩ :=
        ih (done + 1) (H.elapsedAt (done + 1)) (u.onSimTick H signals)
      refine ⟨m + 1, by omega, ?_, ?_, ?_, ?_⟩
      · rw [h1]
        omega
      · rw [h2]
        show u.stamp + H.dt + H.dt * (m : ℤ) =
          u.stamp + H.dt * ((m + 1 : ℕ) : ℤ)
        push_cast
        ring
      · intro hlt
        have : m < n := by omega
        have := h3 this
        rwa [show done + 1 + m = done + (m + 1) from by omega] at this
      · intro k hk1 hk2
        rcases eq_or_lt_of_le (show done + 1 ≤ k from by omega) with rfl | hk3
        · exact hgt
        · exact h4 k hk3 (by omega)

/-- Claim C5: on_sim_ticks takes the batch shortcut exactly when no
landing-site surface is awake and no control signals are pending,
advancing the clock by ticks times dt in one jump and returning
(ticks, elapsed, true); otherwise it ticks one step at a time with
batch flag false, stopping early once the observed wall-clock elapsed
time exceeds the allowance, and the simulation clock advances by
exactly dt times the number of ticks actually performed. -/
theorem claim_C5_on_sim_ticks {ρ κ : Type} (H : HostModel ρ κ)
    (u : Universe ρ) (ticks : ℕ) (signals : ControlSignals κ) (maxDur : ℚ) :
    ((u.landingSites.any (fun ls => ls.isAwake) = false ∧
        signals.isEmpty = true) →
      u.onSimTicks H ticks signals maxDur =
        (u.runBatchTicks H ticks, ticks, H.batchElapsed, true) ∧
      (u.onSimTicks H ticks signals maxDur).1.stamp =
        u.stamp + H.dt * ticks) ∧
    ((u.landingSites.any (fun ls => ls.isAwake) = true ∨
        signals.isEmpty = false) →
      (u.onSimTicks H ticks signals maxDur).2.2.2 = false ∧
      ∃ m, m ≤ ticks ∧
        (u.onSimTicks H ticks signals maxDur).2.1 = m ∧
        (u.onSimTicks H ticks signals maxDur).1.stamp = u.stamp + H.dt * m ∧
        (m < ticks → H.elapsedAt m > maxDur) ∧
        (∀ k, 0 < k → k < m → ¬ H.elapsedAt k > maxDur)) := by
  constructor
  · rintro ⟨hq, hs⟩
    have hcond : (!u.landingSites.any (fun ls => ls.isAwake) &&
        signals.isEmpty) = true := by
      rw [hq, hs]
      rfl
    unfold Universe.onSimTicks
    rw [if_pos hcond]
    exact ⟨rfl, rfl⟩
  · intro hcase
    have hcond : (!u.landingSites.any (fun ls => ls.isAwake) &&
        signals.isEmpty) = false := by
      rcases hcase with hq | hs
      · rw [hq]
        rfl
      · rw [hs]
        simp
    unfold Universe.onSimTicks
    rw [if_neg (by rw [hcond]; simp)]
    obtain ⟨m, hm, h1, h2, h3, h4⟩ := tickLoop_spec H signals maxDur ticks 0 0 u
    refine ⟨rfl, m, hm, ?_, h2, ?_, ?_⟩
    · rw [show (0 : ℕ) + m = m from by omega] at h1
      exact h1
    · intro hlt
      have := h3 hlt
      rwa [show (0 : ℕ) + m = m from by omega] at this
    · intro k hk1 hk2
      exact h4 k hk1 (by omega)

/-- Witness for C5: a batch run (asleep surfaces, empty signals) and a
stepped run (awake surface). -/
theorem claim_C5_witness :
    ((uAsleep.onSimTicks HX 7 sigEmpty 2 =
        (uAsleep.runBatchTicks HX 7, 7, HX.batchElapsed, true) ∧
      (uAsleep.onSimTicks HX 7 sigEmpty 2).1.stamp =
        uAsleep.stamp + HX.dt * 7)) ∧
    ((uAwake.onSimTicks HX 7 sigEmpty 2).2.2.2 = false ∧
      ∃ m, m ≤ 7 ∧
        (uAwake.onSimTicks HX 7 sigEmpty 2).2.1 = m ∧
        (uAwake.onSimTicks HX 7 sigEmpty 2).1.stamp =
          uAwake.stamp + HX.dt * m ∧
        (m < 7 → HX.elapsedAt m > 2) ∧
        (∀ k, 0 < k → k < m → ¬ HX.elapsedAt k > 2)) :=
  ⟨(claim_C5_on_sim_ticks HX uAsleep 7 sigEmpty 2).1 ⟨rfl, rfl⟩,
   (claim_C5_on_sim_ticks HX uAwake 7 sigEmpty 2).2 (Or.inl rfl)⟩

/-! ## PlanetarySystem lookup (claim C6) -/

lemma countOccList_append (id : EntityId) :
    ∀ l1 l2 : List (SparseOrbit × PlanetarySystem),
      countOccList id (l1 ++ l2) = countOccList id l1 + countOccList id l2
  | [], l2 => by simp [countOccList]
  | (o, pl) :: rest, l2 => by
    rw [List.cons_append, countOccList, countOccList,
      countOccList_append id rest l2]
    omega

lemma countOcc_le_of_mem (id : EntityId) :
    ∀ {subs : List (SparseOrbit × PlanetarySystem)} {orbit : SparseOrbit}
      {pl : PlanetarySystem}, (orbit, pl) ∈ subs →
      countOcc id pl ≤ countOccList id subs := by
  intro subs
  induction subs with
  | nil => intro _ _ h; simp at h
  | cons e rest ih =>
    intro orbit pl h
    obtain ⟨o1, p1⟩ := e
    rw [countOccList]
    rcases List.mem_cons.1 h with he | hr
    · injection he with h1 h2
      subst h2
      omega
    · have := ih hr
      omega

lemma one_le_countOcc_of_path :
    ∀ {sys : PlanetarySystem} {os : List SparseOrbit} {p : Option EntityId}
      {target : PlanetarySystem}, PathTo sys os p target →
      1 ≤ countOcc target.id sys := by
  intro sys os p target h
  induction h with
  | refl s =>
    obtain ⟨sid, nm, bd, subs⟩ := s
    rw [countOcc]
    simp [PlanetarySystem.id]
  | step hmem hpath ih =>
    next sys orbit child os' p' target' =>
      obtain ⟨sid, nm, bd, subs⟩ := sys
      rw [countOcc]
      simp only [PlanetarySystem.subsystems] at hmem
      have h1 := countOcc_le_of_mem target'.id hmem
      omega

mutual

theorem lookupInner_none_of_zero (M : SolverModel) (id : EntityId)
    (stamp : Nanotime) :
    ∀ (sys : PlanetarySystem) (wrt : PV) (p0 : Option EntityId),
      countOcc id sys = 0 →
      PlanetarySystem.lookupInner M id stamp sys wrt p0 = none
  | .mk sid nm bd subs, wrt, p0, h => by
    rw [PlanetarySystem.lookupInner]
    rw [countOcc] at h
    have hsid : ¬ sid = id := by
      intro he
      rw [if_pos he] at h
      omega
    rw [if_neg hsid]
    rw [if_neg hsid] at h
    exact lookupList_none_of_zero M id stamp sid subs wrt (by omega)

theorem lookupList_none_of_zero (M : SolverModel) (id : EntityId)
    (stamp : Nanotime) (sid : EntityId) :
    ∀ (subs : List (SparseOrbit × PlanetarySystem)) (wrt : PV),
      countOccList id subs = 0 →
      PlanetarySystem.lookupList M id stamp sid subs wrt = none
  | [], wrt, h => rfl
  | (orbit, pl) :: rest, wrt, h => by
    rw [PlanetarySystem.lookupList]
    rw [countOccList] at h
    cases hpv : M.conic orbit stamp with
    | none =>
      simp only [hpv]
      exact lookupList_none_of_zero M id stamp sid rest wrt (by omega)
    | some pv =>
      simp only [hpv]
      rw [lookupInner_none_of_zero M id stamp pl (wrt + pv) (some sid)
        (by omega)]
      exact lookupList_none_of_zero M id stamp sid rest wrt (by omega)

end

theorem lookupList_append_zero (M : SolverModel) (id : EntityId)
    (stamp : Nanotime) (sid : EntityId) :
    ∀ (l1 rest : List (SparseOrbit × PlanetarySystem)) (wrt : PV),
      countOccList id l1 = 0 →
      PlanetarySystem.lookupList M id stamp sid (l1 ++ rest) wrt =
        PlanetarySystem.lookupList M id stamp sid rest wrt
  | [], rest, wrt, h => rfl
  | (orbit, pl) :: l1', rest, wrt, h => by
    rw [List.cons_append, PlanetarySystem.lookupList]
    rw [countOccList] at h
    cases hpv : M.conic orbit stamp with
    | none =>
      simp only [hpv]
      exact lookupList_append_zero M id stamp sid l1' rest wrt (by omega)
    | some pv =>
      simp only [hpv]
      rw [lookupInner_none_of_zero M id stamp pl (wrt + pv) (some sid)
        (by omega)]
      exact lookupList_append_zero M id stamp sid l1' rest wrt (by omega)

lemma option_or_getD (p : Option EntityId) (sid : EntityId) :
    p.or (some sid) = some (p.getD sid) := by
  cases p <;> rfl

lemma lookupInner_of_path (M : SolverModel) (stamp : Nanotime) :
    ∀ {sys : PlanetarySystem} {os : List SparseOrbit} {par : Option EntityId}
      {target : PlanetarySystem}, PathTo sys os par target →
      countOcc target.id sys = 1 →
      ∀ (pvs : List PV), os.mapM (fun o => M.conic o stamp) = some pvs →
      ∀ (wrt : PV) (p0 : Option EntityId),
        PlanetarySystem.lookupInner M target.id stamp sys wrt p0 =
          some (target.body, pvs.foldl (· + ·) wrt, par.or p0, target) := by
  intro sys os par target hpath
  induction hpath with
  | refl s =>
    intro huniq pvs hev wrt p0
    simp only [List.mapM_nil, pure, Option.some.injEq] at hev
    subst hev
    obtain ⟨sid, nm, bd, subs⟩ := s
    rw [PlanetarySystem.lookupInner,
      if_pos (show sid = (PlanetarySystem.mk sid nm bd subs).id from rfl)]
    rfl
  | step hmem hpath' ih =>
    next sys orbit child os' p' target' =>
      intro huniq pvs hev wrt p0
      obtain ⟨sid, nm, bd, subs⟩ := sys
      simp only [PlanetarySystem.subsystems] at hmem
      rw [countOcc] at huniq
      have hchild : 1 ≤ countOcc target'.id child :=
        one_le_countOcc_of_path hpath'
      have hle := countOcc_le_of_mem target'.id hmem
      have hsid : ¬ sid = target'.id := by
        intro he
        rw [if_pos he] at huniq
        omega
      rw [if_neg hsid] at huniq
      obtain ⟨l1, l2, hsubs⟩ := List.append_of_mem hmem
      rw [hsubs, countOccList_append, countOccList] at huniq
      have hl1 : countOccList target'.id l1 = 0 := by omega
      have hc1 : countOcc target'.id child = 1 := by omega
      cases hpv : M.conic orbit stamp with
      | none =>
        rw [List.mapM_cons, hpv] at hev
        simp at hev
      | some pv =>
        cases hrest : os'.mapM (fun o => M.conic o stamp) with
        | none =>
          rw [List.mapM_cons, hpv, hrest] at hev
          simp at hev
        | some pvs' =>
          have hpvs : pvs = pv :: pvs' := by
            rw [List.mapM_cons, hpv, hrest] at hev
            simp at hev
            exact hev.symm
          subst hpvs
          rw [PlanetarySystem.lookupInner, if_neg hsid]
          rw [hsubs]
          rw [lookupList_append_zero M target'.id stamp sid l1 _ wrt hl1]
          rw [PlanetarySystem.lookupList]
          simp only [hpv]
          rw [ih hc1 pvs' hrest (wrt + pv) (some sid)]
          rw [List.foldl_cons, option_or_getD]
          rfl

/-- Claim C6: for a body id occurring exactly once in the planetary
tree, at any time at which every orbit along the root-to-id path
evaluates, lookup returns Some of the body, the sum of the path
orbits' states (the root contributing PV::ZERO), the id of the node
directly above (none for the root itself), and the subtree. -/
theorem claim_C6_lookup (M : SolverModel) (sys target : PlanetarySystem)
    (os : List SparseOrbit) (par : Option EntityId) (pvs : List PV)
    (stamp : Nanotime)
    (hpath : PathTo sys os par target)
    (huniq : countOcc target.id sys = 1)
    (hev : os.mapM (fun o => M.conic o stamp) = some pvs) :
    sys.lookup M target.id stamp =
      some (target.body, pvs.foldl (· + ·) PV.ZERO, par, target) := by
  unfold PlanetarySystem.lookup
  rw [lookupInner_of_path M stamp hpath huniq pvs hev PV.ZERO none]
  cases par <;> rfl

/-- Witness for C6 on the two-level system planetsTwo: looking up the
moon (id 5) returns its body, the placing orbit's state, parent id 0
and the moon subtree. -/
theorem claim_C6_witness :
    planetsTwo.lookup MX 5 0 =
      some ((PlanetarySystem.mk 5 "moon" bodyX []).body,
        [pvX].foldl (· + ·) PV.ZERO, some 0,
        PlanetarySystem.mk 5 "moon" bodyX []) :=
  claim_C6_lookup MX planetsTwo (PlanetarySystem.mk 5 "moon" bodyX [])
    [orbitX] (some 0) [pvX] 0
    (show PathTo planetsTwo [orbitX] (some 0)
        (PlanetarySystem.mk 5 "moon" bodyX []) from
      PathTo.step (by simp [planetsTwo, PlanetarySystem.subsystems])
        (PathTo.refl _))
    (by decide)
    rfl

end Starling
